import Mathlib

/-!
Verification of the routing / interception / allocation core of the CTF-AI
repository against its specification.

The Python sources are embedded shallowly:
  - namespace Server   : src/server.py
  - namespace Adapter  : src/pathfinding_adapter.py
  - namespace Outline  : src/backend/defensive_ai_outline.py
  - namespace Violet   : src/violet_v0.5/server.py
Machine floats in the sources only ever hold the constants
0.0, 0.1, 0.25, 0.5, 0.75, 1.0, 1.3, 1.4, 1.5, are only assigned and
compared (min / max / order / sums of the exactly-representable quarters
in the A* costs), and every constant is a multiple of 0.05 - so costs are
modelled as integers scaled by 20 (cost 1.0 is stored as 20), which
preserves every comparison the sources make.
The game engine (lib/game_engine.py) is not part of the repository snapshot;
its primitives (route_to, is_on_left, get_direction) are modelled from the
specification, and route_to is additionally kept as an explicit function
parameter of every embedded routine that calls it.
-/

namespace CTF

/-- A grid cell: integer coordinate pair (x, y). -/
abbrev Cell : Type := Int × Int

/-- One unit of the per-tick world snapshot (a Python player dict):
identifier, position, team side, carrying-flag flag, captured flag,
and whether the unit is friendly. -/
structure Player where
  name : String
  posX : Int
  posY : Int
  team : String
  hasFlag : Bool
  inPrison : Bool
  mine : Bool
deriving DecidableEq

/-- A flag objective (a Python flag dict): position, owning side,
pickup-eligible flag. -/
structure Flag where
  posX : Int
  posY : Int
  mine : Bool
  canPickup : Bool
deriving DecidableEq

/-- The per-tick world snapshot consumed from the game engine.
Field obstacles models the optional simulator attribute probed with
hasattr in src/pathfinding_adapter.py (none = attribute absent). -/
structure World where
  width : Int
  height : Int
  middle_line : Int
  walls : List Cell
  players : List Player
  flags : List Flag
  my_team_target : List Cell
  opponent_team_target : List Cell
  my_prisons : List Cell
  my_team_name : String
  obstacles : Option (List Cell)
deriving DecidableEq

def Player.pos (p : Player) : Cell := (p.posX, p.posY)

def Flag.pos (f : Flag) : Cell := (f.posX, f.posY)

/-- Optional-Bool filter used by the world list accessors: None matches
everything, a Bool matches equality. -/
def optMatch (filt : Option Bool) (b : Bool) : Bool :=
  match filt with
  | none => true
  | some v => v == b

/-- world.list_players(mine=..., inPrison=..., hasFlag=...). -/
def listPlayers (w : World) (mine : Bool) (inPrison hasFlag : Option Bool) :
    List Player :=
  w.players.filter fun p =>
    p.mine == mine && optMatch inPrison p.inPrison && optMatch hasFlag p.hasFlag

/-- world.list_flags(mine=..., canPickup=...). -/
def listFlags (w : World) (mine : Bool) (canPickup : Option Bool) : List Flag :=
  w.flags.filter fun f => f.mine == mine && optMatch canPickup f.canPickup

/-- world.list_targets(mine=...). -/
def listTargets (w : World) (mine : Bool) : List Cell :=
  if mine then w.my_team_target else w.opponent_team_target

/-- world.list_prisons(mine=True). -/
def listPrisons (w : World) : List Cell := w.my_prisons

/-- Modelled from the spec: side_of(cell) of the absent game engine
(world.is_on_left) - "the contiguous set of grid columns owned by a team";
middle_line is the first column of the right half. -/
def isOnLeft (w : World) (pos : Cell) : Bool :=
  decide (pos.1 < w.middle_line)

/-- Modelled from the spec: direction_between(cell, next_cell) of the absent
game engine (GameMap.get_direction), one of up / down / left / right;
y grows downward as in the sources' direction tables ((0,-1) is up). -/
def getDirection (a b : Cell) : String :=
  if b = (a.1 + 1, a.2) then "right"
  else if b = (a.1 - 1, a.2) then "left"
  else if b = (a.1, a.2 - 1) then "up"
  else if b = (a.1, a.2 + 1) then "down"
  else ""

/-- Association-list lookup (Python dict read). -/
def alGet {κ α : Type} [DecidableEq κ] : List (κ × α) → κ → Option α
  | [], _ => none
  | (k2, v) :: rest, k => if k2 = k then some v else alGet rest k

/-- Association-list write (Python dict write: replace in place, else append). -/
def alSet {κ α : Type} [DecidableEq κ] : List (κ × α) → κ → α → List (κ × α)
  | [], k, v => [(k, v)]
  | (k2, v2) :: rest, k, v =>
      if k2 = k then (k, v) :: rest else (k2, v2) :: alSet rest k v

/-- Association-list delete (Python del of an existing key). -/
def alDel {κ α : Type} [DecidableEq κ] : List (κ × α) → κ → List (κ × α)
  | [], _ => []
  | (k2, v2) :: rest, k => if k2 = k then rest else (k2, v2) :: alDel rest k

/-- Python membership test on a dict. -/
def alHas {κ α : Type} [DecidableEq κ] (m : List (κ × α)) (k : κ) : Bool :=
  (alGet m k).isSome

/-- 0 <= x < width and 0 <= y < height. -/
def inBounds (w : World) (c : Cell) : Bool :=
  decide (0 ≤ c.1 ∧ c.1 < w.width ∧ 0 ≤ c.2 ∧ c.2 < w.height)

/-- The four-directional neighbour offsets in the order every source file
uses: up, down, left, right. -/
def dirOffsets : List (Int × Int) := [(0, -1), (0, 1), (-1, 0), (1, 0)]

/-- Python min(a, b) on scaled costs: the first argument wins ties. -/
def qmin (a b : Int) : Int := if a ≤ b then a else b

/-- Python max(a, b) on scaled costs: the first argument wins ties. -/
def qmax (a b : Int) : Int := if b ≤ a then a else b

/-- Point update of a weight map (costs in twentieths: 20 = cost 1.0). -/
def wset (m : Cell → Int) (c : Cell) (v : Int) : Cell → Int :=
  fun c2 => if c2 = c then v else m c2

/-- Bounds-guarded point update (the "if 0 <= x < width and 0 <= y < height"
pattern of every weight-map loop). -/
def wsetIf (w : World) (m : Cell → Int) (c : Cell) (v : Int) : Cell → Int :=
  if inBounds w c then wset m c v else m

/-- One step of the bounded BFS ring expansion used by the weight-map
builders: pops the queue head, and if its distance is below the cutoff,
pushes unvisited, in-bounds, non-obstacle neighbours with distance + 1.
The distance map doubles as the visited set, exactly as in the source.
Fuel bounds the iteration count; every enqueue adds a fresh key to the
distance map, so grid-size fuel can never run out on a real expansion. -/
def ringStep (w : World) (obstacles : List Cell) (cutoff : Nat) :
    Nat → List (Cell × Nat) → List (Cell × Nat) → List (Cell × Nat)
  | 0, _, dm => dm
  | _ + 1, [], dm => dm
  | fuel + 1, (c, d) :: queue, dm =>
    if cutoff ≤ d then ringStep w obstacles cutoff fuel queue dm
    else
      let expanded := dirOffsets.foldl
        (fun (st : List (Cell × Nat) × List (Cell × Nat)) off =>
          let n : Cell := (c.1 + off.1, c.2 + off.2)
          if !inBounds w n then st
          else if alHas st.2 n then st
          else if n ∈ obstacles then st
          else (st.1 ++ [(n, d + 1)], st.2 ++ [(n, d + 1)]))
        (queue, dm)
      ringStep w obstacles cutoff fuel expanded.1 expanded.2

/-- The per-opponent BFS distance map (insertion-ordered association list),
expanded out to the given cutoff distance, blocked by obstacles. -/
def ringDistances (w : World) (obstacles : List Cell) (center : Cell)
    (cutoff : Nat) : List (Cell × Nat) :=
  ringStep w obstacles cutoff (w.width.toNat * w.height.toNat + 2)
    [(center, 0)] [(center, 0)]

/-- my_targets = list(world.list_targets(mine=True));
my_side_is_left = world.is_on_left(my_targets[0]) if my_targets else True -
the side computation repeated in build_defence_weight_map and
defence_route. -/
def computeMySideIsLeft (w : World) : Bool :=
  match (listTargets w true).head? with
  | some t => isOnLeft w t
  | none => true

/-- Manhattan distance between two cells (abs(dx) + abs(dy) in the sources). -/
def manhattan (a b : Cell) : Nat :=
  (a.1 - b.1).natAbs + (a.2 - b.2).natAbs

/-- Modelled from the spec: the search loop of the absent game engine's
route_to - "raw, unweighted BFS, four-directional", blocked by walls plus
caller obstacles. Pops a cell; on reaching the destination returns the
parent map, else enqueues unvisited in-bounds unblocked neighbours.
Each enqueue adds a fresh parent-map key, so grid-size fuel suffices. -/
def bfsLoop (w : World) (blocked : List Cell) (dst : Cell) :
    Nat → List Cell → List (Cell × Cell) → Option (List (Cell × Cell))
  | 0, _, _ => none
  | _ + 1, [], _ => none
  | fuel + 1, c :: queue, parents =>
    if c = dst then some parents
    else
      let st := dirOffsets.foldl
        (fun (st : List Cell × List (Cell × Cell)) off =>
          let n : Cell := (c.1 + off.1, c.2 + off.2)
          if !inBounds w n then st
          else if alHas st.2 n then st
          else if n ∈ blocked then st
          else (st.1 ++ [n], st.2 ++ [(n, c)]))
        (queue, parents)
      bfsLoop w blocked dst fuel st.1 st.2

/-- Path reconstruction for the modelled BFS: walk the parent map from the
destination back to the source (the source is its own parent). -/
def bfsBuild (parents : List (Cell × Cell)) : Nat → Cell → List Cell → List Cell
  | 0, _, acc => acc
  | fuel + 1, c, acc =>
    match alGet parents c with
    | none => acc
    | some p => if p = c then c :: acc else bfsBuild parents fuel p (c :: acc)

/-- Modelled from the spec: route_to(src, dst, extra_obstacles) of the absent
game engine - ordered cell sequence from src to dst inclusive, [src] when
src = dst, empty when unreachable. -/
def bfsRoute (w : World) (src dst : Cell) (extra : List Cell) : List Cell :=
  if !inBounds w src || !inBounds w dst then []
  else if src = dst then [src]
  else
    let blocked := w.walls ++ extra
    let fuel := w.width.toNat * w.height.toNat + 2
    match bfsLoop w blocked dst fuel [src] [(src, src)] with
    | none => []
    | some parents => bfsBuild parents fuel dst []

/-- The router signature shared by every embedded routine that calls the
game engine's route_to: source, destination, extra obstacles. -/
abbrev RouteFn : Type := Cell → Cell → List Cell → List Cell

/-- All grid cells in the x-outer, y-inner order of the Python
for x in range(width): for y in range(height) loops. -/
def gridCells (w : World) : List Cell :=
  (List.range w.width.toNat).flatMap fun x =>
    (List.range w.height.toNat).map fun y => ((x : Int), (y : Int))

namespace Server

/-- src/server.py is_in_enemy_territory(player, position); only the
player's team string is consulted. L's boundary column is
middle_line - 1, R's is middle_line (both columns count as enemy
territory for both teams). -/
def is_in_enemy_territory (w : World) (team : String) (position : Cell) :
    Bool :=
  if team = "L" then
    let boundary_line := w.middle_line - 1
    let is_left := decide (position.1 < boundary_line)
    !is_left
  else if team = "R" then
    let boundary_line := w.middle_line + 1
    let is_left := decide (position.1 < boundary_line)
    is_left
  else false

/-- src/server.py is_in_my_territory(player, position). -/
def is_in_my_territory (w : World) (team : String) (position : Cell) : Bool :=
  !is_in_enemy_territory w team position

/-- The wall / extra-obstacle loop body shared by the weight-map builders:
set an in-bounds cell to the impassable 0.0. -/
def setZeroStep (w : World) (m : Cell → Int) (c : Cell) : Cell → Int :=
  wsetIf w m c 0

/-- The delivery-region loop body of build_weight_map: force an in-bounds
cell back to 1.0. -/
def setOneStep (w : World) (m : Cell → Int) (c : Cell) : Cell → Int :=
  wsetIf w m c 20

/-- The distance-to-penalty table of src/server.py build_weight_map:
0.0 / 0.25 / 0.5 at BFS distance 0 / 1 / 2, 1.0 beyond
(scaled: 0 / 5 / 10 / 20). -/
def avoidancePenalty (dist : Nat) : Int :=
  if dist = 0 then 0
  else if dist = 1 then 5
  else if dist = 2 then 10
  else 20

/-- One ring-cell application of build_weight_map: keep the minimum of the
current cost and the opponent penalty. -/
def avoidanceRingApply (m : Cell → Int) (cd : Cell × Nat) : Cell → Int :=
  wset m cd.1 (qmin (m cd.1) (avoidancePenalty cd.2))

/-- One opponent of build_weight_map's penalty loop: skip out-of-bounds
opponents, else apply the radius-2 BFS ring. -/
def avoidanceEnemyStep (w : World) (obstaclesSet : List Cell)
    (m : Cell → Int) (enemy : Player) : Cell → Int :=
  if inBounds w enemy.pos then
    (ringDistances w obstaclesSet enemy.pos 2).foldl avoidanceRingApply m
  else m

/-- The pre-penalty part of src/server.py build_weight_map(extra_obstacles):
1.0 base, walls and extra obstacles 0.0, then both delivery regions
forced back to 1.0 (scaled: 20 / 0 / 20). -/
def build_weight_map_static (w : World) (extra : List Cell) : Cell → Int :=
  let m0 : Cell → Int := fun _ => 20
  let m1 := w.walls.foldl (setZeroStep w) m0
  let m2 := extra.foldl (setZeroStep w) m1
  let m3 := w.my_team_target.foldl (setOneStep w) m2
  w.opponent_team_target.foldl (setOneStep w) m3

/-- src/server.py build_weight_map(extra_obstacles): the avoidance-profile
RiskGrid - the static part above, then per active opponent a radius-2 BFS
ring applied with min-combination. -/
def build_weight_map (w : World) (extra : List Cell) : Cell → Int :=
  (listPlayers w false (some false) none).foldl
    (avoidanceEnemyStep w (w.walls ++ extra))
    (build_weight_map_static w extra)

/-- The distance-to-weight table of src/server.py build_defence_weight_map:
1.5 / 1.4 / 1.3 at BFS distance 0 / 1 / 2, 1.0 beyond
(scaled: 30 / 28 / 26 / 20). -/
def defencePenalty (dist : Nat) : Int :=
  if dist = 0 then 30
  else if dist = 1 then 28
  else if dist = 2 then 26
  else 20

/-- One ring-cell application of build_defence_weight_map: inside the own
half keep the maximum of the current weight and the engagement weight,
elsewhere leave the cell alone. -/
def defenceRingApply (w : World) (my_side_is_left : Bool) (m : Cell → Int)
    (cd : Cell × Nat) : Cell → Int :=
  if my_side_is_left == isOnLeft w cd.1 then
    wset m cd.1 (qmax (m cd.1) (defencePenalty cd.2))
  else m

/-- One opponent of build_defence_weight_map's loop. -/
def defenceEnemyStep (w : World) (my_side_is_left : Bool)
    (obstaclesSet : List Cell) (m : Cell → Int) (enemy : Player) :
    Cell → Int :=
  if inBounds w enemy.pos then
    (ringDistances w obstaclesSet enemy.pos 2).foldl
      (defenceRingApply w my_side_is_left) m
  else m

/-- src/server.py build_defence_weight_map(extra_obstacles): the
engagement-profile RiskGrid. Own-territory base 1.0 / enemy-territory 0.1,
walls and extra obstacles 0.0, per-opponent radius-2 rings applied with
max-combination inside the own half, then every in-bounds enemy-territory
cell overwritten with 0.1 (scaled: own-half base 20, enemy-territory 2). -/
def build_defence_weight_map (w : World) (extra : List Cell) : Cell → Int :=
  let my_side_is_left := computeMySideIsLeft w
  let m0 : Cell → Int := fun c =>
    if my_side_is_left == isOnLeft w c then 20 else 2
  let m1 := w.walls.foldl (setZeroStep w) m0
  let m2 := extra.foldl (setZeroStep w) m1
  let m3 := (listPlayers w false (some false) none).foldl
    (defenceEnemyStep w my_side_is_left (w.walls ++ extra)) m2
  fun c =>
    if inBounds w c && (my_side_is_left != isOnLeft w c) then 2 else m3 c

/-- The per-opponent influence-zone expansion of improved_route: a cell is
added to the zone only when popped with distance below INFLUENCE_RADIUS;
neighbours are enqueued when in-bounds, unvisited and not walls. With
INFLUENCE_RADIUS = 1 only the opponent's own cell ever enters the zone. -/
def influenceStep (w : World) (radius : Nat) :
    Nat → List (Cell × Nat) → List Cell → List Cell → List Cell
  | 0, _, _, zone => zone
  | _ + 1, [], _, zone => zone
  | fuel + 1, (c, d) :: queue, visited, zone =>
    if radius ≤ d then influenceStep w radius fuel queue visited zone
    else
      let zone2 := zone ++ [c]
      let st := dirOffsets.foldl
        (fun (st : List (Cell × Nat) × List Cell) off =>
          let n : Cell := (c.1 + off.1, c.2 + off.2)
          if !inBounds w n then st
          else if n ∈ st.2 then st
          else if n ∈ w.walls then st
          else (st.1 ++ [(n, d + 1)], st.2 ++ [n]))
        (queue, visited)
      influenceStep w radius fuel st.1 st.2 zone2

/-- src/server.py improved_route: the enemy_influence_zone accumulated over
all active opponents (INFLUENCE_RADIUS = 1, fresh visited set per
opponent, shared zone). -/
def enemyInfluenceZone (w : World) : List Cell :=
  (listPlayers w false (some false) none).foldl
    (fun zone enemy =>
      if inBounds w enemy.pos then
        influenceStep w 1 (w.width.toNat * w.height.toNat + 2)
          [(enemy.pos, 0)] [enemy.pos] zone
      else zone)
    []

/-- src/server.py improved_route(srcXY, dstXY, extra_obstacles). After the
bounds and src = dst guards it computes the influence zone and obstacle
set, checks src/dst against walls and the zone - and then, because the
final return-empty statement is dedented out of its if, returns the empty
list on every remaining branch; the world.route_to call below it is
unreachable. -/
def improved_route (w : World) (_rt : RouteFn) (srcXY dstXY : Cell)
    (extra : List Cell) : List Cell :=
  if !inBounds w srcXY then []
  else if !inBounds w dstXY then []
  else if srcXY = dstXY then [srcXY]
  else
    let zone := enemyInfluenceZone w
    let _combined_obstacles := extra ++ zone
    if srcXY ∈ w.walls then []
    else if srcXY ∈ zone then []
    else if dstXY ∈ w.walls then []
    else []

/-- The enemy-territory cells appended as extra obstacles by
defence_route's home-only routing attempt (row-major x-outer loop). -/
def enemyTerritoryCells (w : World) (my_side_is_left : Bool) : List Cell :=
  (gridCells w).filter fun c => my_side_is_left != isOnLeft w c

/-- src/server.py defence_route(srcXY, dstXY, extra_obstacles): bounds and
src = dst guards, wall guards, then - when both endpoints are on the own
side - a first route_to attempt with every enemy-territory cell added as
an obstacle, falling back to a plain route_to call. -/
def defence_route (w : World) (rt : RouteFn) (srcXY dstXY : Cell)
    (extra : List Cell) : List Cell :=
  if !inBounds w srcXY then []
  else if !inBounds w dstXY then []
  else if srcXY = dstXY then [srcXY]
  else
    let my_side_is_left := computeMySideIsLeft w
    if srcXY ∈ w.walls then []
    else if dstXY ∈ w.walls then []
    else
      let src_in_my := my_side_is_left == isOnLeft w srcXY
      let dst_in_my := my_side_is_left == isOnLeft w dstXY
      if src_in_my && dst_in_my then
        let enemy_territory_obstacles :=
          extra ++ enemyTerritoryCells w my_side_is_left
        let path := rt srcXY dstXY enemy_territory_obstacles
        if path ≠ [] then path
        else rt srcXY dstXY extra
      else rt srcXY dstXY extra

/-- src/server.py find_closest_my_territory_on_path(path, player,
player_pos): the own-half path cell of minimum Manhattan distance to the
player (strict improvement, so the first minimum wins). -/
def find_closest_my_territory_on_path (w : World) (team : String)
    (path : List Cell) (player_pos : Cell) : Option Cell :=
  (path.foldl
    (fun (st : Option Cell × Option Nat) pos =>
      if is_in_my_territory w team pos then
        let dist := manhattan pos player_pos
        match st.2 with
        | none => (some pos, some dist)
        | some md => if dist < md then (some pos, some dist) else st
      else st)
    (none, none)).1

/-- src/server.py find_intersection_with_middle_line(path): the path cell of
minimum distance to the middle line (strict improvement, first wins). -/
def find_intersection_with_middle_line (w : World) (path : List Cell) :
    Option Cell :=
  (path.foldl
    (fun (st : Option Cell × Option Nat) pos =>
      let d := (pos.1 - w.middle_line).natAbs
      match st.2 with
      | none => (some pos, some d)
      | some md => if d < md then (some pos, some d) else st)
    (none, none)).1

/-- Outcome of the path-selection part of src/server.py defence():
crash models the NameError raised when the opponent carries no flag, sits
in enemy territory and the own-flag list is empty (flag_path is then read
unbound, because the if using it is dedented out of the flag loop); early
is the return of the empty direction on an invalid initial path; emit p is
the local variable path as it reaches the direction-emitting epilogue. -/
inductive DefOut where
  | crash
  | early
  | emit (path : List Cell)
deriving DecidableEq

/-- The path-filter loop of defence(): walk the initial path, stop right
after the target cell when one is set, otherwise keep own-half cells and
stop at the first enemy-half cell. -/
def defenceFilter (w : World) (team : String) (target_pos : Option Cell) :
    List Cell → List Cell
  | [] => []
  | pos :: rest =>
    if target_pos = some pos then [pos]
    else if is_in_my_territory w team pos then
      pos :: defenceFilter w team target_pos rest
    else []

/-- The intercept-target selection of src/server.py defence(), reached when
the initial path has length at least 3. Outer none = NameError crash;
some none = no target chosen; some (some t) = candidate target t.
A flag-carrying opponent is predicted via its route home (first cell on
both routes inside the own half, else the nearest own-half initial-path
cell). An opponent without a flag already inside the own half selects no
target; otherwise only the opponent's route to the LAST own flag is
inspected (the dedented if detached the intersection logic from the flag
loop), taking its mid-line-closest cell when it lies on the initial
path. -/
def defenceTargetSel (w : World) (rt : RouteFn) (player opponent : Player)
    (initial_path : List Cell) : Option (Option Cell) :=
  let opponent_pos := opponent.pos
  if opponent.hasFlag then
    some
      (match (listTargets w false).head? with
      | none => none
      | some opponent_target =>
        let opponent_path := rt opponent_pos opponent_target []
        if opponent_path = [] then none
        else
          match initial_path.find?
              (fun pos => decide (pos ∈ opponent_path) &&
                is_in_my_territory w player.team pos) with
          | some t => some t
          | none =>
            find_closest_my_territory_on_path w player.team initial_path
              player.pos)
  else
    if is_in_my_territory w player.team opponent_pos then some none
    else
      match (listFlags w true none).getLast? with
      | none => none
      | some lastFlag =>
        let flag_path := rt opponent_pos lastFlag.pos []
        if flag_path = [] then some none
        else
          match find_intersection_with_middle_line w flag_path with
          | none => some none
          | some i =>
            if i ∈ initial_path then some (some i) else some none

/-- src/server.py defence(player, opponent), up to the point where the local
path is fixed: initial defence_route, then for initial paths of length at
least 3 the intercept-target selection, the enemy-half target
cancellation, and the own-half path filter with its dead-end checks. -/
def defencePathOut (w : World) (rt : RouteFn) (player opponent : Player) :
    DefOut :=
  let player_pos := player.pos
  let opponent_pos := opponent.pos
  let initial_path := defence_route w rt player_pos opponent_pos []
  if initial_path.length < 2 then .early
  else if 3 ≤ initial_path.length then
    match defenceTargetSel w rt player opponent initial_path with
    | none => .crash
    | some tp0 =>
      let target_pos :=
        match tp0 with
        | some t => if is_in_my_territory w player.team t then some t else none
        | none => none
      let filtered := defenceFilter w player.team target_pos initial_path
      if filtered.length ≤ 1 then .emit []
      else if filtered.getLast? = some player_pos then .emit []
      else .emit filtered
  else .emit initial_path

/-- src/server.py defence(player, opponent): the emitted direction together
with the flag telling the caller to delete the player's entry of the
player_defence_targets tracking dict (the source mutates the module-level
dict in place); none models the NameError crash of defencePathOut. The
boundary check blocks a step into the enemy half taken from the boundary
column (middle_line - 1 for L, middle_line for R; the float comparison
abs(x - b) < 0.5 is integer equality). -/
def defence (w : World) (rt : RouteFn) (player opponent : Player) :
    Option (String × Bool) :=
  match defencePathOut w rt player opponent with
  | .crash => none
  | .early => some ("", false)
  | .emit path =>
    match path with
    | _ :: next_step :: _ =>
      let direction := getDirection player.pos next_step
      let is_on_boundary :=
        if player.team = "L" then decide (player.posX = w.middle_line - 1)
        else if player.team = "R" then decide (player.posX = w.middle_line)
        else false
      if is_on_boundary && is_in_enemy_territory w player.team next_step then
        some ("", true)
      else some (direction, false)
    | _ => some ("", true)

/-- The closest-opponent loop inside the own-half flag-carrier branch of
src/server.py scoring(); the dedented block makes the distance-3 defence
check run inside the loop after each minimum update, returning early the
first time defence yields a direction. Result: none = defence crashed,
some (some d, clr) = early return with direction d, some (none, clr) =
loop finished without returning; clr accumulates defence's deletions of
the player's defence-target record. -/
def scoringDefLoop (w : World) (rt : RouteFn) (player : Player) :
    List Player → Option Player → Option Nat → Bool →
    Option (Option String × Bool)
  | [], _, _, clr => some (none, clr)
  | opp :: rest, closest, minLen, clr =>
    let path_to_opponent := defence_route w rt player.pos opp.pos []
    let next :=
      if path_to_opponent ≠ [] then
        let pl := path_to_opponent.length
        match minLen with
        | none => (some opp, some pl)
        | some m => if pl < m then (some opp, some pl) else (closest, minLen)
      else (closest, minLen)
    match next.1, next.2 with
    | some co, some m =>
      if m ≤ 3 then
        match defence w rt player co with
        | none => none
        | some (d, c2) =>
          if d ≠ "" then some (some d, clr || c2)
          else scoringDefLoop w rt player rest next.1 next.2 (clr || c2)
      else scoringDefLoop w rt player rest next.1 next.2 clr
    | _, _ => scoringDefLoop w rt player rest next.1 next.2 clr

/-- The try-one-flag step of the flagless branch of scoring():
improved_route first, world.route_to as fallback, valid when the resulting
path has at least two cells. -/
def scoringFlagPath (w : World) (rt : RouteFn) (start : Cell) (flag : Flag) :
    List Cell :=
  let path0 := improved_route w rt start flag.pos []
  if path0.length ≤ 1 then rt start flag.pos [] else path0

/-- src/server.py scoring(player, target_flag): direction plus the
accumulated defence-target-record deletion flag; none = crash propagated
from an inner defence() call. -/
def scoring (w : World) (rt : RouteFn) (player : Player)
    (target_flag : Option Flag) : Option (String × Bool) :=
  let player_pos := player.pos
  if player.hasFlag then
    match (listTargets w true).head? with
    | none => some ("", false)
    | some my_target =>
      if is_in_enemy_territory w player.team player_pos then
        let route_to_target := improved_route w rt player_pos my_target []
        let path :=
          if route_to_target ≠ [] then
            match find_closest_my_territory_on_path w player.team
                route_to_target player_pos with
            | some target => improved_route w rt player_pos target []
            | none => improved_route w rt player_pos my_target []
          else improved_route w rt player_pos my_target []
        match path with
        | _ :: next_step :: _ => some (getDirection player_pos next_step, false)
        | _ => some ("", false)
      else
        let opponents := listPlayers w false (some false) none
        match scoringDefLoop w rt player opponents none none false with
        | none => none
        | some (some d, clr) => some (d, clr)
        | some (none, clr) =>
          let path := improved_route w rt player_pos my_target []
          match path with
          | _ :: next_step :: _ =>
            some (getDirection player_pos next_step, clr)
          | _ => some ("", clr)
  else
    let enemy_flags := listFlags w false (some true)
    if enemy_flags = [] then some ("", false)
    else
      let firstTry : Option (Flag × List Cell) :=
        match target_flag with
        | some s =>
          if s ∈ enemy_flags then
            let path := scoringFlagPath w rt player_pos s
            if 1 < path.length then some (s, path) else none
          else none
        | none => none
      let best :=
        match firstTry with
        | some bp => some bp
        | none =>
          enemy_flags.foldl
            (fun (st : Option (Flag × List Cell)) flag =>
              if target_flag = some flag then st
              else
                let path := scoringFlagPath w rt player_pos flag
                if 1 < path.length then
                  match st with
                  | none => some (flag, path)
                  | some (_, bpath) =>
                    if path.length < bpath.length then some (flag, path) else st
                else st)
            none
      match best with
      | some (_, _ :: next_step :: _) =>
        some (getDirection player_pos next_step, false)
      | _ => some ("", false)

/-- src/server.py saving(player): the rescue direction, together with the
prison cell being routed to (for the caller's target bookkeeping; the
source prints it). The prison closest to the first imprisoned teammate is
chosen by Manhattan distance, routed to by improved_route with a
world.route_to fallback. -/
def savingResult (w : World) (rt : RouteFn) (player : Player) :
    String × Option Cell :=
  let player_pos := player.pos
  match (listPlayers w true (some true) none).head? with
  | none => ("", none)
  | some prisoner =>
    if listPrisons w = [] then ("", none)
    else
      let closest := (listPrisons w).foldl
        (fun (st : Option (Cell × Nat)) prison_pos =>
          let dist := manhattan prisoner.pos prison_pos
          match st with
          | none => some (prison_pos, dist)
          | some (_, m) => if dist < m then some (prison_pos, dist) else st)
        none
      match closest with
      | none => ("", none)
      | some (closest_prison, _) =>
        let path := improved_route w rt player_pos closest_prison []
        match path with
        | _ :: next_step :: _ =>
          (getDirection player_pos next_step, some closest_prison)
        | _ =>
          let path2 := rt player_pos closest_prison []
          match path2 with
          | _ :: next_step :: _ =>
            (getDirection player_pos next_step, some closest_prison)
          | _ => ("", none)

/-- A target identifier bound to a friendly unit during one tick's
resolution pass: an opponent name, a flag cell or a prison cell. -/
inductive TargetId where
  | enemy (n : String)
  | flag (c : Cell)
  | prison (c : Cell)
deriving DecidableEq

/-- The mutable state threaded through plan_next_actions' per-player loop:
the actions dict, the assigned_enemies and assigned_flags pools, the
module-level player_defence_targets dict, and - as bookkeeping for the
statements below - the list of pool-based bindings (additions to
assigned_enemies / assigned_flags made by the defence and scoring task
branches) and of override bindings (flag-carrier lock additions to
assigned_enemies, and prisons routed to by saving). -/
structure PlanState where
  actions : List (String × String)
  assignedEnemies : List String
  assignedFlags : List Cell
  defenceTargets : List (String × String)
  poolBindings : List (String × TargetId)
  overrideBindings : List (String × TargetId)
deriving DecidableEq

/-- The flag-carrier return loop at the top of plan_next_actions: each
flag-carrying free unit is routed to my_targets[0] by world.route_to,
dodging opponents only while inside enemy territory. -/
def returnActions (w : World) (rt : RouteFn) : List (String × String) :=
  let my_players_return := listPlayers w true (some false) (some true)
  let my_targets := listTargets w true
  let opponents := listPlayers w false (some false) none
  my_players_return.foldl
    (fun actions p =>
      match my_targets.head? with
      | none => actions
      | some dest =>
        let start := p.pos
        let extra :=
          if is_in_enemy_territory w p.team start then opponents.map Player.pos
          else []
        match rt start dest extra with
        | _ :: next_step :: _ =>
          alSet actions p.name (getDirection start next_step)
        | _ => actions)
    []

/-- The score computation of plan_next_actions: own flags sitting on the
own delivery region versus pickup-able enemy flags sitting on theirs. -/
def planScores (w : World) : Int × Int :=
  let my_flags := listFlags w true none
  let enemy_flags := listFlags w false (some true)
  (((my_flags.filter fun f => f.pos ∈ w.my_team_target).length : Int),
   ((enemy_flags.filter fun f => f.pos ∈ w.opponent_team_target).length : Int))

/-- The task table of plan_next_actions: by score difference and the number
of imprisoned opponents, the units named prefix+0/1/2 are given the
defence or scoring task. -/
def planAssignments (w : World) : List (String × String) :=
  let my_players_go := listPlayers w true (some false) (some false)
  let enemy_prison_count := (listPlayers w false (some true) none).length
  let scores := planScores w
  let score_diff := scores.1 - scores.2
  let nm0 := w.my_team_name
  let nm :=
    if nm0 = "" then
      match my_players_go.head? with
      | some p => p.team
      | none => nm0
    else nm0
  let pfx := nm
  if score_diff < 0 then
    if enemy_prison_count ≤ 1 then
      [(pfx ++ "0", "defence"), (pfx ++ "1", "scoring"), (pfx ++ "2", "scoring")]
    else if enemy_prison_count = 2 then
      [(pfx ++ "0", "scoring"), (pfx ++ "1", "scoring"), (pfx ++ "2", "scoring")]
    else
      [(pfx ++ "0", "scoring"), (pfx ++ "1", "scoring"), (pfx ++ "2", "scoring")]
  else if score_diff = 0 then
    if enemy_prison_count ≤ 1 then
      [(pfx ++ "0", "defence"), (pfx ++ "1", "defence"), (pfx ++ "2", "scoring")]
    else if enemy_prison_count = 2 then
      [(pfx ++ "0", "defence"), (pfx ++ "1", "scoring"), (pfx ++ "2", "scoring")]
    else
      [(pfx ++ "0", "scoring"), (pfx ++ "1", "scoring"), (pfx ++ "2", "scoring")]
  else
    if enemy_prison_count ≤ 2 then
      [(pfx ++ "0", "defence"), (pfx ++ "1", "defence"), (pfx ++ "2", "defence")]
    else
      [(pfx ++ "0", "scoring"), (pfx ++ "1", "scoring"), (pfx ++ "2", "scoring")]

/-- The pre-loop scan of plan_next_actions for an opponent that carries a
flag while inside the own half (judged from the first free unit's team,
defaulting to L): the first such opponent triggers the full-map lock. -/
def flagCarrierInMyTerritory (w : World) : Option Player :=
  let my_players_go := listPlayers w true (some false) (some false)
  let team :=
    match my_players_go.head? with
    | some p => p.team
    | none => "L"
  (listPlayers w false (some false) none).find? fun opp =>
    opp.hasFlag && is_in_my_territory w team opp.pos

/-- The sticky-target scan of the defence task branch: the first available
opponent carrying the tracked name is kept when it is still inside enemy
territory; finding it already across the mid-line (or not at all) leaves
the choice to the new-target selection. -/
def stickyLookup (w : World) (team : String) (available : List Player)
    (targetName : String) : Option Player :=
  match available.find? (fun opp => opp.name == targetName) with
  | some opp =>
    if is_in_enemy_territory w team opp.pos then some opp else none
  | none => none

/-- The candidate order of the new-target selection: skip the tracked
name, prefer opponents inside the own half. -/
def defenceCandidateList (w : World) (p : Player) (available : List Player)
    (currentTarget : Option String) : List Player :=
  let candidates := available.filter fun opp =>
    !(decide (currentTarget = some opp.name))
  let inMy := candidates.filter fun opp =>
    is_in_my_territory w p.team opp.pos
  let inEnemy := candidates.filter fun opp =>
    !(is_in_my_territory w p.team opp.pos)
  if inMy ≠ [] then inMy else inEnemy

/-- The new-target selection of the defence task branch: the first strict
minimum of defence_route path length among candidates with a nonempty
path. -/
def newDefenceStep (w : World) (rt : RouteFn) (p : Player)
    (st : Option (Player × Nat)) (opp : Player) : Option (Player × Nat) :=
  let path := defence_route w rt p.pos opp.pos []
  if path ≠ [] then
    let pl := path.length
    match st with
    | none => some (opp, pl)
    | some (_, m) => if pl < m then some (opp, pl) else st
  else st

def newDefenceTarget (w : World) (rt : RouteFn) (p : Player)
    (available : List Player) (currentTarget : Option String) :
    Option Player :=
  ((defenceCandidateList w p available currentTarget).foldl
    (newDefenceStep w rt p) none).map Prod.fst

/-- Applying one defence(p, o) call inside the plan loop: propagate the
crash, honour the target-record deletion, and on a nonempty direction
record the action, remove o from the opponent pool and log the pool
binding. -/
def applyDefence (w : World) (rt : RouteFn) (p o : Player) (st : PlanState) :
    Option PlanState :=
  match defence w rt p o with
  | none => none
  | some (dir, clr) =>
    let st2 :=
      if clr then { st with defenceTargets := alDel st.defenceTargets p.name }
      else st
    if dir ≠ "" then
      some { st2 with
        actions := alSet st2.actions p.name dir,
        assignedEnemies := st2.assignedEnemies ++ [o.name],
        poolBindings := st2.poolBindings ++ [(p.name, TargetId.enemy o.name)] }
    else some st2

/-- The defence task branch of plan_next_actions for one player. -/
def defenceTask (w : World) (rt : RouteFn) (opponents : List Player)
    (p : Player) (st : PlanState) : Option PlanState :=
  let available := opponents.filter fun op =>
    decide (op.name ∉ st.assignedEnemies)
  if available = [] then some st
  else
    let current := alGet st.defenceTargets p.name
    let sticky :=
      match current with
      | some n => stickyLookup w p.team available n
      | none => none
    match sticky with
    | some o => applyDefence w rt p o st
    | none =>
      match newDefenceTarget w rt p available current with
      | some o =>
        applyDefence w rt p o
          { st with defenceTargets := alSet st.defenceTargets p.name o.name }
      | none =>
        some { st with defenceTargets := alDel st.defenceTargets p.name }

/-- The best-flag scoring of the scoring task branch: per available flag,
own improved_route length against the minimum opponent improved_route
length (1000 when no opponent reaches it), maximising their difference
starting from the sentinel score -1. -/
def scoringFlagStep (w : World) (rt : RouteFn) (opponents : List Player)
    (start : Cell) (stb : Option Flag × Int) (flag : Flag) :
    Option Flag × Int :=
  let path := improved_route w rt start flag.pos []
  if path ≠ [] then
    let myLen : Int := path.length
    let minEnemyOpt := opponents.foldl
      (fun (acc : Option Int) opp =>
        let opath := improved_route w rt opp.pos flag.pos []
        if opath ≠ [] then
          match acc with
          | none => some (opath.length : Int)
          | some m =>
            if (opath.length : Int) < m then some (opath.length : Int)
            else acc
        else acc)
      none
    let minEnemy : Int :=
      match minEnemyOpt with
      | none => 1000
      | some m => m
    let score := minEnemy - myLen
    if stb.2 < score then (some flag, score) else stb
  else stb

def scoringBestFlag (w : World) (rt : RouteFn) (opponents : List Player)
    (availableFlags : List Flag) (start : Cell) : Option Flag :=
  (availableFlags.foldl (scoringFlagStep w rt opponents start)
    ((none : Option Flag), (-1 : Int))).1

/-- The scoring task branch of plan_next_actions for one player. -/
def scoringTask (w : World) (rt : RouteFn) (opponents : List Player)
    (enemy_flags : List Flag) (p : Player) (st : PlanState) :
    Option PlanState :=
  if enemy_flags = [] then some st
  else
    let available_flags := enemy_flags.filter fun f =>
      decide (f.pos ∉ st.assignedFlags)
    if available_flags = [] then some st
    else
      match scoringBestFlag w rt opponents available_flags p.pos with
      | none => some st
      | some closest_flag =>
        match scoring w rt p (some closest_flag) with
        | none => none
        | some (dir, clr) =>
          let st2 :=
            if clr then
              { st with defenceTargets := alDel st.defenceTargets p.name }
            else st
          if dir ≠ "" then
            some { st2 with
              actions := alSet st2.actions p.name dir,
              assignedFlags := st2.assignedFlags ++ [closest_flag.pos],
              poolBindings :=
                st2.poolBindings ++ [(p.name, TargetId.flag closest_flag.pos)] }
          else some st2

/-- Applying one saving(p) call inside the plan loop: on a nonempty
direction record the action and log the prison binding. -/
def applySaving (w : World) (rt : RouteFn) (p : Player) (st : PlanState) :
    PlanState :=
  let r := savingResult w rt p
  if r.1 ≠ "" then
    { st with
      actions := alSet st.actions p.name r.1,
      overrideBindings := st.overrideBindings ++
        (match r.2 with
        | some c => [(p.name, TargetId.prison c)]
        | none => []) }
  else st

/-- The override chain at the bottom of plan_next_actions' per-player loop:
the flag-carrier full-map lock (overwriting any earlier decision), the
forced rescue at two imprisoned teammates, the prioritised rescue at one,
and the rescue fallback for a player still without an action. -/
def overrideStage (w : World) (rt : RouteFn) (my_players_go : List Player)
    (fc : Option Player) (my_prison_count : Nat) (p : Player)
    (st : PlanState) : Option PlanState :=
  match fc with
  | some carrier =>
    match defence w rt p carrier with
    | none => none
    | some (dir, clr) =>
      let st2 :=
        if clr then
          { st with defenceTargets := alDel st.defenceTargets p.name }
        else st
      if dir ≠ "" then
        some { st2 with
          actions := alSet st2.actions p.name dir,
          assignedEnemies := st2.assignedEnemies ++ [carrier.name],
          overrideBindings :=
            st2.overrideBindings ++ [(p.name, TargetId.enemy carrier.name)] }
      else some st2
  | none =>
    if my_prison_count = 2 then some (applySaving w rt p st)
    else if my_prison_count = 1 then
      let other_players_saving := my_players_go.any fun other =>
        decide (other.name ≠ p.name) && alHas st.actions other.name
      if !other_players_saving then some (applySaving w rt p st) else some st
    else if !(alHas st.actions p.name) then
      if listPlayers w true (some true) none ≠ [] then
        some (applySaving w rt p st)
      else some st
    else some st

/-- The last-resort flag walk of plan_next_actions: the first enemy flag a
plain world.route_to can reach with at least two cells gives the
direction. -/
def fallbackFlagLoop (rt : RouteFn) (start : Cell) : List Flag → Option String
  | [] => none
  | flag :: rest =>
    match rt start flag.pos [] with
    | _ :: next_step :: _ => some (getDirection start next_step)
    | _ => fallbackFlagLoop rt start rest

/-- The two trailing fallbacks of the per-player loop: the route_to flag
walk, then the empty hold direction. -/
def fallbackStage (rt : RouteFn) (enemy_flags : List Flag) (p : Player)
    (st : PlanState) : PlanState :=
  let st2 :=
    if !(alHas st.actions p.name) then
      match fallbackFlagLoop rt p.pos enemy_flags with
      | some dir => { st with actions := alSet st.actions p.name dir }
      | none => st
    else st
  if !(alHas st2.actions p.name) then
    { st2 with actions := alSet st2.actions p.name "" }
  else st2

/-- One iteration of plan_next_actions' loop over the free units: skip a
unit that already has an action, run its task branch, the override chain
and the fallbacks. -/
def planPlayer (w : World) (rt : RouteFn) (opponents : List Player)
    (enemy_flags : List Flag) (assignments : List (String × String))
    (fc : Option Player) (my_prison_count : Nat)
    (my_players_go : List Player) (p : Player) (st : PlanState) :
    Option PlanState :=
  if alHas st.actions p.name then some st
  else
    let task :=
      match alGet assignments p.name with
      | some t => t
      | none => "scoring"
    let afterTask : Option PlanState :=
      if task = "defence" then defenceTask w rt opponents p st
      else if task = "scoring" then scoringTask w rt opponents enemy_flags p st
      else some st
    match afterTask with
    | none => none
    | some st2 =>
      match overrideStage w rt my_players_go fc my_prison_count p st2 with
      | none => none
      | some st3 => some (fallbackStage rt enemy_flags p st3)

/-- The fold of planPlayer over the free units. -/
def planLoop (w : World) (rt : RouteFn) (opponents : List Player)
    (enemy_flags : List Flag) (assignments : List (String × String))
    (fc : Option Player) (my_prison_count : Nat)
    (my_players_go : List Player) :
    List Player → PlanState → Option PlanState
  | [], st => some st
  | p :: rest, st =>
    match planPlayer w rt opponents enemy_flags assignments fc
        my_prison_count my_players_go p st with
    | none => none
    | some st2 =>
      planLoop w rt opponents enemy_flags assignments fc my_prison_count
        my_players_go rest st2

/-- src/server.py plan_next_actions(req): the flag-carrier return pass
followed by the task / override / fallback loop over the free units.
The incoming defenceTargets0 is the module-level player_defence_targets
dict as left by the previous tick; none models a NameError escaping
from an inner defence() call. -/
def plan_next_actions (w : World) (rt : RouteFn)
    (defenceTargets0 : List (String × String)) : Option PlanState :=
  let my_players_go := listPlayers w true (some false) (some false)
  let opponents := listPlayers w false (some false) none
  let enemy_flags := listFlags w false (some true)
  let my_prison_count := (listPlayers w true (some true) none).length
  let assignments := planAssignments w
  let fc := flagCarrierInMyTerritory w
  let st0 : PlanState :=
    { actions := returnActions w rt
      assignedEnemies := []
      assignedFlags := []
      defenceTargets := defenceTargets0
      poolBindings := []
      overrideBindings := [] }
  planLoop w rt opponents enemy_flags assignments fc my_prison_count
    my_players_go my_players_go st0

end Server

namespace Adapter

/-- src/pathfinding_adapter.py build_weight_map(world, extra_obstacles):
like the server variant but with the simulator obstacle attribute folded
in and the opponent BFS rings expanded to radius 3 (penalty 0.75 at
distance 3; scaled: 0 / 5 / 10 / 15 / 20). The hasattr probes for the
delivery-region attributes are modelled as present - GameMap worlds
always carry them. -/
def build_weight_map (w : World) (extra : List Cell) : Cell → Int :=
  let simObstacles :=
    match w.obstacles with
    | some obs => obs
    | none => []
  let m0 : Cell → Int := fun _ => 20
  let m1 := w.walls.foldl (fun m c => wsetIf w m c 0) m0
  let m2 := extra.foldl (fun m c => wsetIf w m c 0) m1
  let m3 := simObstacles.foldl (fun m c => wsetIf w m c 0) m2
  let m4 := w.my_team_target.foldl (fun m c => wsetIf w m c 20) m3
  let m5 := w.opponent_team_target.foldl (fun m c => wsetIf w m c 20) m4
  let obstaclesSet := w.walls ++ extra ++ simObstacles
  (listPlayers w false (some false) none).foldl
    (fun m enemy =>
      if inBounds w enemy.pos then
        (ringDistances w obstaclesSet enemy.pos 3).foldl
          (fun m cd =>
            let enemy_weight : Int :=
              if cd.2 = 0 then 0
              else if cd.2 = 1 then 5
              else if cd.2 = 2 then 10
              else if cd.2 = 3 then 15
              else 20
            wset m cd.1 (qmin (m cd.1) enemy_weight))
          m
      else m)
    m5

/-- A heap entry of the adapter's A*: (f_score, g_score, x, y), compared
exactly as Python compares these tuples - lexicographically (the scores
carry the x20 cost scaling, which preserves the comparisons: every float
cost here is a multiple of 0.25 and such sums are exact doubles). -/
abbrev Entry : Type := Int × Int × Int × Int

/-- Strict lexicographic order on heap entries. -/
def entryLt (a b : Entry) : Bool :=
  if a.1 ≠ b.1 then decide (a.1 < b.1)
  else if a.2.1 ≠ b.2.1 then decide (a.2.1 < b.2.1)
  else if a.2.2.1 ≠ b.2.2.1 then decide (a.2.2.1 < b.2.2.1)
  else decide (a.2.2.2 < b.2.2.2)

/-- The first minimal entry of the open set (heapq pops a smallest tuple;
entries comparing equal are identical 4-tuples, so the choice among them
cannot change the result). -/
def minEntry : List Entry → Option Entry
  | [] => none
  | e :: rest =>
    match minEntry rest with
    | none => some e
    | some m => if entryLt m e then some m else some e

/-- Remove the first occurrence of an entry. -/
def removeFirst (e : Entry) : List Entry → List Entry
  | [] => []
  | x :: rest => if x = e then rest else x :: removeFirst e rest

/-- heapq.heappop on the modelled open set. -/
def popMin (l : List Entry) : Option (Entry × List Entry) :=
  match minEntry l with
  | none => none
  | some e => some (e, removeFirst e l)

/-- The Manhattan heuristic of the adapter's A*, carried to the x20 cost
scale so that f = g + h compares as in the source. -/
def heuristic (pos1 pos2 : Cell) : Int := 20 * (manhattan pos1 pos2 : Int)

/-- The path reconstruction of the adapter's A*: follow came_from from the
destination, append the source, reverse. -/
def astarBuild (cameFrom : List (Cell × Cell)) (src : Cell) :
    Nat → Cell → List Cell → List Cell
  | 0, _, path => (path ++ [src]).reverse
  | fuel + 1, current, path =>
    match alGet cameFrom current with
    | some p => astarBuild cameFrom src fuel p (path ++ [current])
    | none => (path ++ [src]).reverse

/-- The neighbour relaxation of one A* iteration: for one direction
offset, push the neighbour when it is in bounds, not yet closed, passable
and strictly better than its recorded g_score (move cost 1 - weight; a
missing g_score reads as infinity and never relaxes). -/
def relaxStep (w : World) (wm : Cell → Int) (dst : Cell)
    (closed2 : List Cell) (current : Cell)
    (st : List Entry × List (Cell × Int) × List (Cell × Cell))
    (off : Cell) : List Entry × List (Cell × Int) × List (Cell × Cell) :=
  let neighbor : Cell := (current.1 + off.1, current.2 + off.2)
  if !inBounds w neighbor then st
  else if neighbor ∈ closed2 then st
  else
    let neighbor_weight := wm neighbor
    if neighbor_weight = 0 then st
    else
      let move_cost := 20 - neighbor_weight
      match alGet st.2.1 current with
      | none => st
      | some gc =>
        let tentative_g := gc + move_cost
        let better :=
          match alGet st.2.1 neighbor with
          | none => true
          | some gn => decide (tentative_g < gn)
        if better then
          let f := tentative_g + heuristic neighbor dst
          (st.1 ++ [(f, tentative_g, neighbor.1, neighbor.2)],
           alSet st.2.1 neighbor tentative_g,
           alSet st.2.2 neighbor current)
        else st

/-- The main loop of the adapter's A*: pop the smallest entry, skip closed
cells, close the current cell, return the reconstruction on reaching the
destination, else relax the four neighbours. Fuel bounds the iterations:
each non-skipped iteration closes a new cell and pushes at most four
entries, so pushes never exceed 1 + 4 * width * height and the given fuel
cannot run out. -/
def astarLoop (w : World) (wm : Cell → Int) (src dst : Cell) :
    Nat → List Entry → List (Cell × Int) → List (Cell × Cell) → List Cell →
    List Cell
  | 0, _, _, _, _ => []
  | fuel + 1, open_set, gScore, cameFrom, closedSet =>
    match popMin open_set with
    | none => []
    | some (e, rest) =>
      let current : Cell := (e.2.2.1, e.2.2.2)
      if current ∈ closedSet then
        astarLoop w wm src dst fuel rest gScore cameFrom closedSet
      else
        let closed2 := closedSet ++ [current]
        if current = dst then astarBuild cameFrom src (fuel + 1) current []
        else
          let st := dirOffsets.foldl (relaxStep w wm dst closed2 current)
            (rest, gScore, cameFrom)
          astarLoop w wm src dst fuel st.1 st.2.1 st.2.2 closed2

/-- src/pathfinding_adapter.py improved_route(world, srcXY, dstXY,
extra_obstacles): bounds guards, the src = dst shortcut, impassable
endpoint guards against the freshly built weight map, then the weighted
A* search; an exhausted search returns the empty list. -/
def improved_route (w : World) (srcXY dstXY : Cell) (extra : List Cell) :
    List Cell :=
  if !inBounds w srcXY then []
  else if !inBounds w dstXY then []
  else if srcXY = dstXY then [srcXY]
  else
    let weight_map := build_weight_map w extra
    if weight_map srcXY = 0 then []
    else if weight_map dstXY = 0 then []
    else
      astarLoop w weight_map srcXY dstXY
        (4 * w.width.toNat * w.height.toNat + 8)
        [(0, 0, srcXY.1, srcXY.2)] [(srcXY, 0)] [] []

end Adapter

namespace Violet

/-- src/violet_v0.5/server.py improved_route(srcXY, dstXY,
extra_obstacles): identical to the src/server.py variant except that the
final return-empty statement sits inside its if, so the route_to call with
the combined obstacles is reached. The influence-zone computation is
literally the same code, so the Server embedding is reused. -/
def improved_route (w : World) (rt : RouteFn) (srcXY dstXY : Cell)
    (extra : List Cell) : List Cell :=
  if !inBounds w srcXY then []
  else if !inBounds w dstXY then []
  else if srcXY = dstXY then [srcXY]
  else
    let zone := Server.enemyInfluenceZone w
    let combined_obstacles := extra ++ zone
    if srcXY ∈ w.walls then []
    else if srcXY ∈ zone then []
    else if dstXY ∈ w.walls then []
    else if dstXY ∈ zone then []
    else rt srcXY dstXY combined_obstacles

end Violet

namespace Outline

/-- The player-state enumeration of
src/backend/defensive_ai_outline.py. -/
inductive PState where
  | absolute_defense
  | opportunity_attack
  | distraction
  | rescue
deriving DecidableEq

/-- src/backend/defensive_ai_outline.py calculate_distance(pos1,
pos2_data): the Manhattan distance between a cell and a unit's
position. -/
def calculate_distance (pos1 : Cell) (pos2_data : Player) : Nat :=
  (pos1.1 - pos2_data.posX).natAbs + (pos1.2 - pos2_data.posY).natAbs

/-- The module-level context the outline's assignment helpers read: grid
size, own side, and the running score. -/
structure Ctx where
  width : Int
  height : Int
  mySideIsLeft : Bool
  myScore : Int
  enemyScore : Int

/-- The defence column computed by assign_defense_position: the column
hugging the mid-line on the own side, retreated by 3 when leading,
clamped to the grid. -/
def defense_x (ctx : Ctx) : Int :=
  let middle_x := ctx.width / 2
  let base_defense_x := if ctx.mySideIsLeft then middle_x - 1 else middle_x
  let defense_offset : Int := if ctx.myScore > ctx.enemyScore then 3 else 0
  let dx :=
    if ctx.mySideIsLeft then base_defense_x - defense_offset
    else base_defense_x + defense_offset
  max 0 (min (ctx.width - 1) dx)

/-- The first opponent of minimum Manhattan distance (Python min with a key
function keeps the earliest minimum). -/
def nearestOpponent (p : Player) (opponents : List Player) : Option Player :=
  opponents.foldl
    (fun st opp =>
      match st with
      | none => some opp
      | some b =>
        if calculate_distance p.pos opp < calculate_distance p.pos b then
          some opp
        else st)
    none

/-- src/backend/defensive_ai_outline.py assign_defense_position(player,
opponents): park on the defence column at the nearest opponent's row
(grid-centre row without opponents) in the ABSOLUTE_DEFENSE state. -/
def assign_defense_position (ctx : Ctx) (p : Player)
    (opponents : List Player) (states : List (String × PState))
    (targets : List (String × Cell)) :
    List (String × PState) × List (String × Cell) :=
  let dx := defense_x ctx
  let tgt : Cell :=
    match nearestOpponent p opponents with
    | some nearest => (dx, nearest.posY)
    | none => (dx, ctx.height / 2)
  (alSet states p.name PState.absolute_defense, alSet targets p.name tgt)

/-- The minimum Manhattan distance from a flag to any free opponent
(none models float inf when no free opponent exists). -/
def minEnemyDist (free_opponents : List Player) (flag_pos : Cell) :
    Option Nat :=
  free_opponents.foldl
    (fun acc opp =>
      let d := calculate_distance flag_pos opp
      match acc with
      | none => some d
      | some m => if d < m then some d else acc)
    none

/-- One flag of the per-player selection loop of assign_safe_flags: skip a
flag already assigned this call, require a nonempty route, require
path_length + safety_margin < min_enemy_dist with safety_margin = 2
(vacuously true when no free opponent exists), and keep the first strict
minimum of path length. -/
def safeFlagStep (rt : RouteFn) (free_opponents : List Player)
    (assignedSet : List Cell) (player_pos : Cell)
    (st : Option (Cell × Nat)) (flag : Flag) : Option (Cell × Nat) :=
  let flag_pos := flag.pos
  if flag_pos ∈ assignedSet then st
  else
    let path_to_flag := rt player_pos flag_pos []
    if path_to_flag = [] then st
    else
      let path_length := path_to_flag.length
      let safe :=
        match minEnemyDist free_opponents flag_pos with
        | none => true
        | some m => decide (path_length + 2 < m)
      if safe then
        match st with
        | none => some (flag_pos, path_length)
        | some (_, bs) =>
          if path_length < bs then some (flag_pos, path_length) else st
      else st

/-- The per-player flag selection of assign_safe_flags: the best safe flag
position, if any. -/
def safeFlagChoice (rt : RouteFn) (free_opponents : List Player)
    (assignedSet : List Cell) (enemy_flags : List Flag) (player_pos : Cell) :
    Option Cell :=
  (enemy_flags.foldl (safeFlagStep rt free_opponents assignedSet player_pos)
    none).map Prod.fst

/-- The per-tick maps assign_safe_flags writes: player_states,
player_targets, player_assigned_flags. -/
structure Maps where
  states : List (String × PState)
  targets : List (String × Cell)
  assignedFlags : List (String × Cell)
deriving DecidableEq

/-- src/backend/defensive_ai_outline.py assign_safe_flags(attack_players,
enemy_flags, opponents, used_opponents): bind each attack player to its
safe-flag choice (OPPORTUNITY_ATTACK) while removing the flag from this
call's pool, or fall back to assign_defense_position. -/
def assign_safe_flags (ctx : Ctx) (rt : RouteFn)
    (attack_players : List Player) (enemy_flags : List Flag)
    (opponents : List Player) (used_opponents : List String) (maps : Maps) :
    Maps :=
  let free_opponents := opponents.filter fun opp =>
    decide (opp.name ∉ used_opponents)
  (attack_players.foldl
    (fun (st : Maps × List Cell) player =>
      match safeFlagChoice rt free_opponents st.2 enemy_flags player.pos with
      | some best_flag =>
        ({ states := alSet st.1.states player.name PState.opportunity_attack
           targets := alSet st.1.targets player.name best_flag
           assignedFlags := alSet st.1.assignedFlags player.name best_flag },
         st.2 ++ [best_flag])
      | none =>
        let r := assign_defense_position ctx player opponents st.1.states
          st.1.targets
        ({ states := r.1, targets := r.2
           assignedFlags := st.1.assignedFlags }, st.2))
    (maps, [])).1

end Outline

/-- Modelled from the spec: step 3 of the InterceptPlanner as the
specification words it (and as the violet variant implements it) - for
EACH own flag, predict the opponent's route, take its mid-line-closest
cell, and among the candidates lying on the defender's direct route keep
the one closest to the opponent. Used only to contrast with the
src/server.py defence(), whose dedented if consults the last flag only. -/
def defenceBestIntersectionSpec (w : World) (rt : RouteFn)
    (initial_path : List Cell) (opponent_pos : Cell) : Option Cell :=
  ((listFlags w true none).foldl
    (fun (st : Option (Cell × Nat)) flag =>
      let flag_path := rt opponent_pos flag.pos []
      if flag_path = [] then st
      else
        match Server.find_intersection_with_middle_line w flag_path with
        | none => st
        | some i =>
          if i ∈ initial_path then
            let dist := manhattan i opponent_pos
            match st with
            | none => some (i, dist)
            | some (_, m) => if dist < m then some (i, dist) else st
          else st)
    none).map Prod.fst

/-! Concrete worlds used by the counterexamples and witnesses below. -/

/-- Shorthand player constructor: name, position, team, hasFlag, inPrison,
mine. -/
def mkP (n : String) (x y : Int) (t : String) (hf ip mi : Bool) : Player :=
  { name := n, posX := x, posY := y, team := t, hasFlag := hf,
    inPrison := ip, mine := mi }

/-- Shorthand flag constructor: position, mine, canPickup. -/
def mkF (x y : Int) (mi cp : Bool) : Flag :=
  { posX := x, posY := y, mine := mi, canPickup := cp }

/-- An 8x3 grid with an opposing flag carrier inside the own half and two
free defenders: the full-map lock binds both defenders to the carrier. -/
def exW1 : World :=
  { width := 8, height := 3, middle_line := 4, walls := [],
    players := [mkP "L0" 0 0 "L" false false true,
                mkP "L1" 0 2 "L" false false true,
                mkP "R0" 1 1 "R" true false false],
    flags := [], my_team_target := [(0,1)], opponent_team_target := [(7,1)],
    my_prisons := [], my_team_name := "L", obstacles := none }

/-- An 8x1 corridor with the defender at x = 2 and the opponent on the
boundary column x = 3 = middle_line - 1, one step away. -/
def exW2 : World :=
  { width := 8, height := 1, middle_line := 4, walls := [],
    players := [mkP "L0" 2 0 "L" false false true,
                mkP "R0" 3 0 "R" false false false],
    flags := [], my_team_target := [(0,0)], opponent_team_target := [(7,0)],
    my_prisons := [], my_team_name := "L", obstacles := none }

/-- A 4x1 corridor with a single flag-carrying friendly unit. -/
def exW3 : World :=
  { width := 4, height := 1, middle_line := 2, walls := [],
    players := [mkP "L0" 3 0 "L" true false true],
    flags := [], my_team_target := [(0,0)], opponent_team_target := [(3,0)],
    my_prisons := [], my_team_name := "L", obstacles := none }

/-- An 8x3 grid where defender L1 arrives sticky-bound to R0, but the
earlier-processed defender L0 takes R0 from the pool first. -/
def exW4 : World :=
  { width := 8, height := 3, middle_line := 4, walls := [],
    players := [mkP "L0" 0 0 "L" false false true,
                mkP "L1" 0 2 "L" false false true,
                mkP "R0" 4 0 "R" false false false,
                mkP "R1" 4 2 "R" false false false],
    flags := [mkF 1 1 true true], my_team_target := [(0,1)],
    opponent_team_target := [(7,1)],
    my_prisons := [], my_team_name := "L", obstacles := none }

/-- A 4x1 corridor with an opponent standing inside the own half at (1,0). -/
def exW6 : World :=
  { width := 4, height := 1, middle_line := 2, walls := [],
    players := [mkP "R0" 1 0 "R" false false false],
    flags := [], my_team_target := [(0,0)], opponent_team_target := [(3,0)],
    my_prisons := [], my_team_name := "L", obstacles := none }

/-- A 4x1 corridor with an opponent standing on the own delivery cell. -/
def exW7 : World :=
  { width := 4, height := 1, middle_line := 2, walls := [],
    players := [mkP "R0" 0 0 "R" false false false],
    flags := [], my_team_target := [(0,0)], opponent_team_target := [(3,0)],
    my_prisons := [], my_team_name := "L", obstacles := none }

/-- An 8x3 grid for the intercept planner: defender L0 at (0,0), flagless
opponent R0 at (6,0), a reachable own flag at (1,0) whose predicted route
crosses the mid-line at (4,0) on the defender's direct route, and a
second own flag at (0,2) walled off behind (0,1) and (1,2) - the LAST
flag in the list, the only one the dedented code inspects. -/
def exW8 : World :=
  { width := 8, height := 3, middle_line := 4,
    walls := [(0,1),(1,2)],
    players := [mkP "L0" 0 0 "L" false false true,
                mkP "R0" 6 0 "R" false false false],
    flags := [mkF 1 0 true true, mkF 0 2 true true],
    my_team_target := [(2,0)], opponent_team_target := [(7,1)],
    my_prisons := [], my_team_name := "L", obstacles := none }

/-- The defender of exW8. -/
def exW8L0 : Player := mkP "L0" 0 0 "L" false false true

/-- The designated opponent of exW8. -/
def exW8R0 : Player := mkP "R0" 6 0 "R" false false false

/-- The defender's direct route of exW8. -/
def exW8initial : List Cell :=
  Server.defence_route exW8 (bfsRoute exW8) (0,0) (6,0) []

/-- A 5x5 grid whose centre cell (2,2) is passable but walled off by its
four neighbours. -/
def exW9 : World :=
  { width := 5, height := 5, middle_line := 2,
    walls := [(1,2),(3,2),(2,1),(2,3)],
    players := [], flags := [], my_team_target := [(0,0)],
    opponent_team_target := [(4,4)], my_prisons := [], my_team_name := "L",
    obstacles := none }

/-- A 3x1 corridor with no walls and no opponents. -/
def exWV : World :=
  { width := 3, height := 1, middle_line := 1, walls := [],
    players := [], flags := [], my_team_target := [(0,0)],
    opponent_team_target := [(2,0)], my_prisons := [], my_team_name := "L",
    obstacles := none }

/-- The target of a pool binding is recorded in the matching assigned-set
of the plan state (and pool bindings never carry a prison target). -/
def TargetAssigned (st : Server.PlanState) :
    String × Server.TargetId → Prop
  | (_, Server.TargetId.enemy n) => n ∈ st.assignedEnemies
  | (_, Server.TargetId.flag c) => c ∈ st.assignedFlags
  | (_, Server.TargetId.prison _) => False

/-- The pool invariant of the plan loop: the pool-binding targets are
pairwise distinct, and each one is recorded in its assigned-set. -/
def PoolInv (st : Server.PlanState) : Prop :=
  (st.poolBindings.map Prod.snd).Nodup ∧
    ∀ b ∈ st.poolBindings, TargetAssigned st b

/-- One passable step of the adapter router: a four-neighbour move onto an
in-bounds cell whose weight is nonzero. -/
def AStep (w : World) (wm : Cell → Int) (a b : Cell) : Prop :=
  (∃ off ∈ dirOffsets, b = (a.1 + off.1, a.2 + off.2)) ∧
    inBounds w b = true ∧ wm b ≠ 0

/-- Reachability through passable steps of the adapter router. -/
def Connected (w : World) (wm : Cell → Int) (src dst : Cell) : Prop :=
  Relation.ReflTransGen (AStep w wm) src dst

/-- A fold preserves an invariant preserved by every step. -/
theorem foldl_inv {α β : Type _} (Inv : β → Prop) (f : β → α → β)
    (l : List α) (b : β) (hb : Inv b) (hf : ∀ b a, Inv b → Inv (f b a)) :
    Inv (l.foldl f b) := by
  induction l generalizing b with
  | nil => exact hb
  | cons a t ih => exact ih _ (hf b a hb)

/-- Every cell of a weight map lies in a closed interval. -/
def WBound (lo hi : Int) (m : Cell → Int) : Prop :=
  ∀ c, lo ≤ m c ∧ m c ≤ hi

theorem qmin_cases (a b : Int) : qmin a b = a ∨ qmin a b = b := by
  unfold qmin; split <;> simp

theorem qmax_cases (a b : Int) : qmax a b = a ∨ qmax a b = b := by
  unfold qmax; split <;> simp

theorem wset_bound {lo hi v : Int} (m : Cell → Int) (c : Cell)
    (hm : WBound lo hi m) (hv : lo ≤ v ∧ v ≤ hi) :
    WBound lo hi (wset m c v) := by
  intro c2; unfold wset; split
  · exact hv
  · exact hm c2

theorem wsetIf_bound (w : World) {lo hi v : Int} (m : Cell → Int) (c : Cell)
    (hm : WBound lo hi m) (hv : lo ≤ v ∧ v ≤ hi) :
    WBound lo hi (wsetIf w m c v) := by
  unfold wsetIf; split
  · exact wset_bound m c hm hv
  · exact hm

theorem avoidancePenalty_bound (d : Nat) :
    0 ≤ Server.avoidancePenalty d ∧ Server.avoidancePenalty d ≤ 20 := by
  unfold Server.avoidancePenalty; split_ifs <;> omega

theorem defencePenalty_bound (d : Nat) :
    0 ≤ Server.defencePenalty d ∧ Server.defencePenalty d ≤ 30 := by
  unfold Server.defencePenalty; split_ifs <;> omega

theorem avoidanceRingApply_bound (m : Cell → Int) (cd : Cell × Nat)
    (hm : WBound 0 20 m) : WBound 0 20 (Server.avoidanceRingApply m cd) := by
  unfold Server.avoidanceRingApply
  apply wset_bound _ _ hm
  rcases qmin_cases (m cd.1) (Server.avoidancePenalty cd.2) with h | h <;>
    rw [h]
  · exact hm cd.1
  · exact avoidancePenalty_bound cd.2

theorem avoidanceEnemyStep_bound (w : World) (obs : List Cell)
    (m : Cell → Int) (e : Player) (hm : WBound 0 20 m) :
    WBound 0 20 (Server.avoidanceEnemyStep w obs m e) := by
  unfold Server.avoidanceEnemyStep; split
  · exact foldl_inv _ _ _ _ hm fun m cd h => avoidanceRingApply_bound m cd h
  · exact hm

theorem build_weight_map_static_bound (w : World) (extra : List Cell) :
    WBound 0 20 (Server.build_weight_map_static w extra) := by
  unfold Server.build_weight_map_static
  apply foldl_inv (WBound 0 20) (Server.setOneStep w)
  · apply foldl_inv (WBound 0 20) (Server.setOneStep w)
    · apply foldl_inv (WBound 0 20) (Server.setZeroStep w)
      · apply foldl_inv (WBound 0 20) (Server.setZeroStep w)
        · intro c; dsimp only; omega
        · intro m c h; exact wsetIf_bound w m c h (by omega)
      · intro m c h; exact wsetIf_bound w m c h (by omega)
    · intro m c h; exact wsetIf_bound w m c h (by omega)
  · intro m c h; exact wsetIf_bound w m c h (by omega)

theorem defenceRingApply_bound (w : World) (msl : Bool) (m : Cell → Int)
    (cd : Cell × Nat) (hm : WBound 0 30 m) :
    WBound 0 30 (Server.defenceRingApply w msl m cd) := by
  unfold Server.defenceRingApply; split
  · apply wset_bound _ _ hm
    rcases qmax_cases (m cd.1) (Server.defencePenalty cd.2) with h | h <;>
      rw [h]
    · exact hm cd.1
    · exact defencePenalty_bound cd.2
  · exact hm

theorem defenceEnemyStep_bound (w : World) (msl : Bool) (obs : List Cell)
    (m : Cell → Int) (e : Player) (hm : WBound 0 30 m) :
    WBound 0 30 (Server.defenceEnemyStep w msl obs m e) := by
  unfold Server.defenceEnemyStep; split
  · exact foldl_inv _ _ _ _ hm fun m cd h => defenceRingApply_bound w msl m cd h
  · exact hm

/-- C6, amended: every cell of the avoidance-profile RiskGrid carries a
cost in [0.0, 1.0] (scaled [0, 20]) with 0.0 the impassable sentinel,
but the engagement-profile RiskGrid ranges over [0.0, 1.5] (scaled
[0, 30]): inside the own half opponent proximity deliberately RAISES the
weight to 1.3 / 1.4 / 1.5, above the claimed upper end 1.0. -/
theorem C6_weight_bounds :
    ∀ (w : World) (extra : List Cell) (c : Cell),
      (0 ≤ Server.build_weight_map w extra c ∧
        Server.build_weight_map w extra c ≤ 20) ∧
      (0 ≤ Server.build_defence_weight_map w extra c ∧
        Server.build_defence_weight_map w extra c ≤ 30) := by
  intro w extra c
  constructor
  · have : WBound 0 20 (Server.build_weight_map w extra) := by
      unfold Server.build_weight_map
      exact foldl_inv _ _ _ _ (build_weight_map_static_bound w extra)
        fun m e h => avoidanceEnemyStep_bound w _ m e h
    exact this c
  · have : WBound 0 30 (Server.build_defence_weight_map w extra) := by
      unfold Server.build_defence_weight_map
      intro c2
      simp only
      split
      · omega
      · have h3 : WBound 0 30
            ((listPlayers w false (some false) none).foldl
              (Server.defenceEnemyStep w (computeMySideIsLeft w)
                (w.walls ++ extra))
              (extra.foldl (Server.setZeroStep w)
                (w.walls.foldl (Server.setZeroStep w)
                  (fun c =>
                    if (computeMySideIsLeft w == isOnLeft w c) = true then 20
                    else 2)))) := by
          apply foldl_inv (WBound 0 30)
          · apply foldl_inv (WBound 0 30) (Server.setZeroStep w)
            · apply foldl_inv (WBound 0 30) (Server.setZeroStep w)
              · intro c3; dsimp only; split <;> omega
              · intro m c3 h; exact wsetIf_bound w m c3 h (by omega)
            · intro m c3 h; exact wsetIf_bound w m c3 h (by omega)
          · intro m e h; exact defenceEnemyStep_bound w _ _ m e h
        exact h3 c2
    exact this c

/-- C6 counterexample: in exW6 the engagement-profile RiskGrid holds cost
1.5 (stored as 30 on the x20 scale) at the opponent's own-half in-bounds
cell (1,0) - outside the claimed interval [0.0, 1.0] (scaled [0, 20]). -/
theorem C6_counterexample :
    Server.build_defence_weight_map exW6 [] (1,0) = 30 ∧
    inBounds exW6 (1,0) = true ∧
    ¬ Server.build_defence_weight_map exW6 [] (1,0) ≤ 20 := by decide

theorem foldl_wsetIf_not_mem (w : World) (v : Int) (l : List Cell)
    (m : Cell → Int) (t : Cell) (ht : t ∉ l) :
    (l.foldl (fun m c => wsetIf w m c v) m) t = m t := by
  induction l generalizing m with
  | nil => rfl
  | cons c rest ih =>
    have hne : t ≠ c := fun h => ht (h ▸ List.mem_cons_self c rest)
    have hr : t ∉ rest := fun h => ht (List.mem_cons_of_mem c h)
    rw [List.foldl_cons, ih _ hr]
    unfold wsetIf wset
    split
    · simp [hne]
    · rfl

theorem foldl_wsetIf_mem (w : World) (v : Int) (l : List Cell)
    (m : Cell → Int) (t : Cell) (ht : t ∈ l) (hb : inBounds w t = true) :
    (l.foldl (fun m c => wsetIf w m c v) m) t = v := by
  induction l generalizing m with
  | nil => cases ht
  | cons c rest ih =>
    by_cases hr : t ∈ rest
    · exact ih _ hr
    · have hc : t = c := by
        rcases List.mem_cons.mp ht with h | h
        · exact h
        · exact absurd h hr
      subst hc
      rw [List.foldl_cons, foldl_wsetIf_not_mem w v rest _ t hr]
      unfold wsetIf wset
      rw [if_pos hb]
      simp

theorem static_target_value (w : World) (extra : List Cell) (t : Cell)
    (ht : t ∈ w.my_team_target ∨ t ∈ w.opponent_team_target)
    (hb : inBounds w t = true) :
    Server.build_weight_map_static w extra t = 20 := by
  unfold Server.build_weight_map_static Server.setOneStep Server.setZeroStep
  rcases ht with h | h
  · by_cases h2 : t ∈ w.opponent_team_target
    · exact foldl_wsetIf_mem w 20 _ _ t h2 hb
    · rw [foldl_wsetIf_not_mem w 20 _ _ t h2]
      exact foldl_wsetIf_mem w 20 _ _ t h hb
  · exact foldl_wsetIf_mem w 20 _ _ t h hb

theorem foldl_pres_at {α : Type _} (f : (Cell → Int) → α → (Cell → Int))
    (l : List α) (m : Cell → Int) (t : Cell)
    (h : ∀ m2 a, a ∈ l → f m2 a t = m2 t) : (l.foldl f m) t = m t := by
  induction l generalizing m with
  | nil => rfl
  | cons a rest ih =>
    rw [List.foldl_cons,
      ih _ fun m2 a2 ha2 => h m2 a2 (List.mem_cons_of_mem a ha2)]
    exact h m a (List.mem_cons_self a rest)

theorem avoidanceRingApply_other (m : Cell → Int) (cd : Cell × Nat)
    (t : Cell) (h : cd.1 ≠ t) : Server.avoidanceRingApply m cd t = m t := by
  unfold Server.avoidanceRingApply wset
  split
  · exact absurd (by assumption : t = cd.1) (fun he => h he.symm)
  · rfl

theorem avoidanceEnemyStep_untouched (w : World) (obs : List Cell)
    (m : Cell → Int) (e : Player) (t : Cell)
    (h : inBounds w e.pos = true →
      t ∉ (ringDistances w obs e.pos 2).map Prod.fst) :
    Server.avoidanceEnemyStep w obs m e t = m t := by
  unfold Server.avoidanceEnemyStep
  split
  · apply foldl_pres_at
    intro m2 cd hcd
    apply avoidanceRingApply_other
    intro heq
    exact (h (by assumption)) (heq ▸ List.mem_map_of_mem Prod.fst hcd)
  · rfl

/-- C7, amended: every in-bounds delivery-region cell is forced to cost 1.0
(scaled 20) by the pre-penalty part of the avoidance map - so walls and
extra obstacles never leave it impassable - and keeps exactly 1.0 in the
finished map when no active opponent's radius-2 BFS ring reaches it; a
ring that does reach it lowers it afterwards (to 0.0 when an opponent
stands on it, as the counterexample shows). -/
theorem C7_delivery_cells :
    ∀ (w : World) (extra : List Cell) (t : Cell),
      (t ∈ w.my_team_target ∨ t ∈ w.opponent_team_target) →
      inBounds w t = true →
      Server.build_weight_map_static w extra t = 20 ∧
      ((∀ e ∈ listPlayers w false (some false) none,
          inBounds w e.pos = true →
          t ∉ (ringDistances w (w.walls ++ extra) e.pos 2).map Prod.fst) →
        Server.build_weight_map w extra t = 20) := by
  intro w extra t ht hb
  refine ⟨static_target_value w extra t ht hb, fun hrings => ?_⟩
  unfold Server.build_weight_map
  rw [foldl_pres_at _ _ _ _
    fun m2 e he => avoidanceEnemyStep_untouched w _ m2 e t (hrings e he)]
  exact static_target_value w extra t ht hb

/-- C7 witness for the amended statement, on the opponent-free corridor
exWV: the delivery cell (0,0) is forced to 20 in the static map and keeps
20 in the finished map. -/
theorem C7_delivery_cells_witness :
    Server.build_weight_map_static exWV [] (0,0) = 20 ∧
    Server.build_weight_map exWV [] (0,0) = 20 := by
  have h := C7_delivery_cells exWV [] (0,0) (Or.inl (by decide)) (by decide)
  exact ⟨h.1, h.2 (by decide)⟩

/-- C7 counterexample: in exW7 an opponent stands on the in-bounds delivery
cell (0,0); the finished avoidance-profile RiskGrid holds the impassable
0.0 there (stored as 0), not the claimed 1.0 (stored as 20) - the
opponent-proximity pass runs after the delivery-region reset and lowers
it. -/
theorem C7_counterexample :
    ((0:Int),(0:Int)) ∈ exW7.my_team_target ∧
    inBounds exW7 (0,0) = true ∧
    Server.build_weight_map exW7 [] (0,0) = 0 ∧
    ¬ Server.build_weight_map exW7 [] (0,0) = 20 := by decide

theorem alGet_alSet_self {κ α : Type _} [DecidableEq κ]
    (m : List (κ × α)) (k : κ) (v : α) : alGet (alSet m k v) k = some v := by
  induction m with
  | nil => simp [alSet, alGet]
  | cons kv rest ih =>
    by_cases h : kv.1 = k
    · simp [alSet, alGet, h]
    · simpa [alSet, alGet, h] using ih

theorem alGet_alSet_ne {κ α : Type _} [DecidableEq κ]
    (m : List (κ × α)) (k k2 : κ) (v : α) (h : k2 ≠ k) :
    alGet (alSet m k2 v) k = alGet m k := by
  induction m with
  | nil => simp [alSet, alGet, h]
  | cons kv rest ih =>
    by_cases h2 : kv.1 = k2
    · simp [alSet, alGet, h2, h]
    · simp only [alSet, if_neg h2, alGet]
      split
      · rfl
      · exact ih

theorem alGet_alDel_ne {κ α : Type _} [DecidableEq κ]
    (m : List (κ × α)) (k k2 : κ) (h : k2 ≠ k) :
    alGet (alDel m k2) k = alGet m k := by
  induction m with
  | nil => rfl
  | cons kv rest ih =>
    by_cases h2 : kv.1 = k2
    · have hk : kv.1 ≠ k := fun hh => h (h2 ▸ hh)
      simp only [alDel, if_pos h2, alGet, if_neg hk]
    · simp only [alDel, if_neg h2, alGet]
      split
      · rfl
      · exact ih

theorem foldl_inv_mem {α β : Type _} (Inv : β → Prop) (f : β → α → β)
    (l : List α) (b : β) (hb : Inv b)
    (hf : ∀ b a, a ∈ l → Inv b → Inv (f b a)) : Inv (l.foldl f b) := by
  induction l generalizing b with
  | nil => exact hb
  | cons a t ih =>
    exact ih _ (hf b a (List.mem_cons_self a t) hb)
      fun b2 a2 ha2 => hf b2 a2 (List.mem_cons_of_mem a ha2)

theorem safeFlagStep_inv (rt : RouteFn) (free : List Player)
    (assigned : List Cell) (ppos : Cell) (Q : Cell → Prop)
    (st : Option (Cell × Nat)) (flag : Flag)
    (hflag : flag.pos ∉ assigned → rt ppos flag.pos [] ≠ [] →
      (∀ m, Outline.minEnemyDist free flag.pos = some m →
        (rt ppos flag.pos []).length + 2 < m) → Q flag.pos)
    (hst : ∀ c n, st = some (c, n) → Q c) :
    ∀ c n, Outline.safeFlagStep rt free assigned ppos st flag = some (c, n) →
      Q c := by
  intro c n hstep
  simp only [Outline.safeFlagStep] at hstep
  split_ifs at hstep with h1 h2 h3
  · exact hst c n hstep
  · exact hst c n hstep
  · have hcond : ∀ m, Outline.minEnemyDist free flag.pos = some m →
        (rt ppos flag.pos []).length + 2 < m := by
      intro m hm
      rw [hm] at h3
      exact of_decide_eq_true h3
    match hstdef : st with
    | none =>
      simp only [Option.some.injEq, Prod.mk.injEq] at hstep
      obtain ⟨rfl, -⟩ := hstep
      exact hflag h1 h2 hcond
    | some (c0, b0) =>
      dsimp only at hstep
      split_ifs at hstep with h4
      · simp only [Option.some.injEq, Prod.mk.injEq] at hstep
        obtain ⟨rfl, -⟩ := hstep
        exact hflag h1 h2 hcond
      · exact hst c n hstep
  · exact hst c n hstep

/-- C5: the advantage-state attack assignment. Part one: assign_safe_flags
can bind a flag to a unit only when the unit's own route to it is
nonempty and own_path_length + 2 is strictly below the nearest free
opponent's distance to that flag (measured by calculate_distance, the
cited Manhattan helper; no free opponent means no constraint). Part two:
the claim's concrete scenario - a sole flag, own path length 5, nearest
free opponent at distance 6 - yields no ATTACK binding (5 + 2 is not
below 6) and the unit falls back to the ABSOLUTE_DEFENSE assignment with
the assigned-flag map untouched. -/
theorem C5_safety_margin :
    (∀ (rt : RouteFn) (free_opponents : List Player)
        (assignedSet : List Cell) (enemy_flags : List Flag)
        (player_pos fpos : Cell),
      Outline.safeFlagChoice rt free_opponents assignedSet enemy_flags
          player_pos = some fpos →
      ∃ f ∈ enemy_flags, f.pos = fpos ∧ fpos ∉ assignedSet ∧
        rt player_pos fpos [] ≠ [] ∧
        ∀ m, Outline.minEnemyDist free_opponents fpos = some m →
          (rt player_pos fpos []).length + 2 < m) ∧
    (∀ (ctx : Outline.Ctx) (rt : RouteFn) (p : Player) (f : Flag)
        (opponents : List Player) (used : List String)
        (maps : Outline.Maps),
      (rt p.pos f.pos []).length = 5 →
      Outline.minEnemyDist
        (opponents.filter fun opp => decide (opp.name ∉ used)) f.pos =
        some 6 →
      alGet (Outline.assign_safe_flags ctx rt [p] [f] opponents used
          maps).states p.name = some Outline.PState.absolute_defense ∧
      (Outline.assign_safe_flags ctx rt [p] [f] opponents used
          maps).assignedFlags = maps.assignedFlags) := by
  constructor
  · intro rt free assigned flags ppos fpos hsel
    unfold Outline.safeFlagChoice at hsel
    rcases hfold : flags.foldl
        (Outline.safeFlagStep rt free assigned ppos) none with _ | ⟨c0, n0⟩
    · rw [hfold] at hsel; cases hsel
    · rw [hfold] at hsel
      have hc0 : c0 = fpos := by
        simpa using hsel
      subst hc0
      have hinv := foldl_inv_mem
        (fun st => ∀ c n, st = some (c, n) →
          ∃ f ∈ flags, f.pos = c ∧ c ∉ assigned ∧ rt ppos c [] ≠ [] ∧
            ∀ m, Outline.minEnemyDist free c = some m →
              (rt ppos c []).length + 2 < m)
        (Outline.safeFlagStep rt free assigned ppos) flags none
        (by intro c n h; cases h)
        (by
          intro st flag hmem hst
          exact safeFlagStep_inv rt free assigned ppos _ st flag
            (fun ha hb hc => ⟨flag, hmem, rfl, ha, hb, hc⟩) hst)
      exact hinv c0 n0 hfold
  · intro ctx rt p f opponents used maps h5 hm
    have hne : rt p.pos f.pos [] ≠ [] := by
      intro h0
      rw [h0] at h5
      cases h5
    have hchoice : Outline.safeFlagChoice rt
        (opponents.filter fun opp => decide (opp.name ∉ used)) [] [f]
        p.pos = none := by
      unfold Outline.safeFlagChoice
      simp only [List.foldl_cons, List.foldl_nil]
      simp only [Outline.safeFlagStep, List.not_mem_nil, if_false, hm,
        if_neg hne, h5]
      rfl
    simp only [Outline.assign_safe_flags, List.foldl_cons, List.foldl_nil]
    rw [hchoice]
    dsimp only [Outline.assign_defense_position]
    exact ⟨alGet_alSet_self maps.states p.name _, rfl⟩

/-- C5 witness: a concrete instantiation of the scenario part - the route
function returns a fixed 5-cell path, the sole free opponent sits at
Manhattan distance 6 from the flag - and of the only-when part at a world
where a flag does get chosen. -/
theorem C5_safety_margin_witness :
    (alGet (Outline.assign_safe_flags
        ⟨8, 3, true, 0, 0⟩
        (fun _ _ _ => [(0,0),(1,0),(2,0),(3,0),(4,0)])
        [mkP "A" 0 0 "L" false false true]
        [mkF 4 0 false true]
        [mkP "R9" 10 0 "R" false false false] []
        ⟨[], [], []⟩).states "A" =
      some Outline.PState.absolute_defense) ∧
    ∃ f ∈ [mkF 4 0 false true], f.pos = ((4:Int), (0:Int)) := by
  constructor
  · exact (C5_safety_margin.2 ⟨8, 3, true, 0, 0⟩
      (fun _ _ _ => [(0,0),(1,0),(2,0),(3,0),(4,0)])
      (mkP "A" 0 0 "L" false false true) (mkF 4 0 false true)
      [mkP "R9" 10 0 "R" false false false] [] ⟨[], [], []⟩
      (by decide) (by decide)).1
  · exact ⟨mkF 4 0 false true, by decide, by decide⟩

/-- C9 counterexample: with src = dst = (5,5) out of bounds on the 5x5 grid
of exW9 the adapter router returns the empty list, not [src] as the claim
universally demands for src = dst. -/
theorem C9_counterexample :
    Adapter.improved_route exW9 (5,5) (5,5) [] = [] ∧
    Adapter.improved_route exW9 (5,5) (5,5) [] ≠ [((5:Int),(5:Int))] := by
  decide

/-- C1 counterexample: in exW1 the flag-carrier full-map lock binds both
free defenders L0 and L1 to the same opponent R0 within one tick, so the
multiset of bound opponent ids holds "R0" twice. -/
theorem C1_counterexample :
    ∃ res, Server.plan_next_actions exW1 (bfsRoute exW1) [] = some res ∧
      ("L0", Server.TargetId.enemy "R0") ∈
        res.poolBindings ++ res.overrideBindings ∧
      ("L1", Server.TargetId.enemy "R0") ∈
        res.poolBindings ++ res.overrideBindings ∧
      ¬ ((res.poolBindings ++ res.overrideBindings).map Prod.snd).Nodup := by
  refine ⟨_, rfl, ?_, ?_, ?_⟩ <;> decide

theorem defenceFilter_mem (w : World) (team : String) (tp : Option Cell)
    (htp : ∀ t, tp = some t → Server.is_in_my_territory w team t = true) :
    ∀ (l : List Cell) (c : Cell), c ∈ Server.defenceFilter w team tp l →
      Server.is_in_my_territory w team c = true := by
  intro l
  induction l with
  | nil => intro c h; cases h
  | cons pos rest ih =>
    intro c h
    unfold Server.defenceFilter at h
    split_ifs at h with h1 h2
    · rcases List.mem_singleton.mp h with rfl
      exact htp c h1
    · rcases List.mem_cons.mp h with rfl | hm
      · exact h2
      · exact ih c hm
    · cases h

/-- C2, amended: whenever the defence path to the designated opponent has
length at least 3 - the predict-and-filter branch - every cell of the
path defence() finally emits from lies inside the unit's own half, so the
emitted direction cannot leave it. In the short-path branch (length 2)
the filter is skipped and the unit may step onto the first enemy-half
column unless it already stands on the boundary column, as the
counterexample shows. -/
theorem C2_defend_long_path_stays_home :
    ∀ (w : World) (rt : RouteFn) (p o : Player) (path : List Cell),
      3 ≤ (Server.defence_route w rt p.pos o.pos []).length →
      Server.defencePathOut w rt p o = Server.DefOut.emit path →
      ∀ c ∈ path, Server.is_in_my_territory w p.team c = true := by
  intro w rt p o path h3 hout
  simp only [Server.defencePathOut] at hout
  rw [if_neg (by omega), if_pos h3] at hout
  rcases hsel : Server.defenceTargetSel w rt p o
      (Server.defence_route w rt p.pos o.pos []) with _ | tp0
  · rw [hsel] at hout; cases hout
  · rw [hsel] at hout
    dsimp only at hout
    split_ifs at hout with h1 h2
    · cases hout; intro c h; cases h
    · cases hout; intro c h; cases h
    · cases hout
      apply defenceFilter_mem
      intro t htp
      rcases tp0 with _ | t0
      · cases htp
      · dsimp only at htp
        split_ifs at htp with hmy
        cases htp
        exact hmy

/-- C2 witness for the amended statement: in exW4 the defender L0's
length-5 path to R0 is filtered to the own-half prefix
[(0,0),(1,0),(2,0)]; its final cell (2,0) lies inside the own half. -/
theorem C2_defend_long_path_stays_home_witness :
    Server.is_in_my_territory exW4 (mkP "L0" 0 0 "L" false false true).team
      ((2:Int),(0:Int)) = true :=
  C2_defend_long_path_stays_home exW4 (bfsRoute exW4)
    (mkP "L0" 0 0 "L" false false true)
    (mkP "R0" 4 0 "R" false false false)
    [(0,0),(1,0),(2,0)] (by decide) (by decide)
    ((2:Int),(0:Int)) (by decide)

/-- C2 counterexample: in exW2 the defender L0 at (2,0) holds the DEFEND
task and is told "right", stepping onto (3,0) - a cell outside its home
half by the code's own territory predicate (for L, enemy territory starts
at column middle_line - 1 = 3). -/
theorem C2_counterexample :
    alGet (Server.planAssignments exW2) "L0" = some "defence" ∧
    (Server.plan_next_actions exW2 (bfsRoute exW2) []).map
      (fun r => alGet r.actions "L0") = some (some "right") ∧
    getDirection ((2:Int),(0:Int)) ((3:Int),(0:Int)) = "right" ∧
    Server.is_in_enemy_territory exW2 "L" ((3:Int),(0:Int)) = true := by
  decide

/-- Frame property of one processed unit q relative to another name pn:
pn's actions entry is untouched and every new binding carries q's name. -/
def FrameAt (pn qn : String) (st st2 : Server.PlanState) : Prop :=
  alGet st2.actions pn = alGet st.actions pn ∧
  (∀ b ∈ st2.poolBindings, b ∈ st.poolBindings ∨ b.1 = qn) ∧
  (∀ b ∈ st2.overrideBindings, b ∈ st.overrideBindings ∨ b.1 = qn)

theorem frameAt_refl (pn qn : String) (st : Server.PlanState) :
    FrameAt pn qn st st :=
  ⟨rfl, fun _ hb => Or.inl hb, fun _ hb => Or.inl hb⟩

theorem frameAt_trans {pn qn : String} {st st2 st3 : Server.PlanState}
    (h1 : FrameAt pn qn st st2) (h2 : FrameAt pn qn st2 st3) :
    FrameAt pn qn st st3 := by
  refine ⟨h2.1.trans h1.1, ?_, ?_⟩
  · intro b hb
    rcases h2.2.1 b hb with h | h
    · exact h1.2.1 b h
    · exact Or.inr h
  · intro b hb
    rcases h2.2.2 b hb with h | h
    · exact h1.2.2 b h
    · exact Or.inr h

theorem frameAt_dt (pn qn : String) (st : Server.PlanState)
    (X : List (String × String)) :
    FrameAt pn qn st { st with defenceTargets := X } :=
  ⟨rfl, fun _ hb => Or.inl hb, fun _ hb => Or.inl hb⟩

theorem mem_append_single {α : Type _} {l : List α} {x b : α}
    (h : b ∈ l ++ [x]) : b ∈ l ∨ b = x := by
  rcases List.mem_append.mp h with h | h
  · exact Or.inl h
  · exact Or.inr (List.mem_singleton.mp h)

theorem frame_bind_enemy (pn qn en dir : String) (mid : Server.PlanState)
    (hne : qn ≠ pn) :
    FrameAt pn qn mid
      { mid with
        actions := alSet mid.actions qn dir,
        assignedEnemies := mid.assignedEnemies ++ [en],
        poolBindings :=
          mid.poolBindings ++ [(qn, Server.TargetId.enemy en)] } := by
  refine ⟨alGet_alSet_ne _ pn qn dir hne, ?_, fun _ hb => Or.inl hb⟩
  intro b hb
  rcases mem_append_single hb with hm | hm
  · exact Or.inl hm
  · exact Or.inr (by rw [hm])

theorem frame_bind_flag (pn qn dir : String) (c : Cell)
    (mid : Server.PlanState) (hne : qn ≠ pn) :
    FrameAt pn qn mid
      { mid with
        actions := alSet mid.actions qn dir,
        assignedFlags := mid.assignedFlags ++ [c],
        poolBindings :=
          mid.poolBindings ++ [(qn, Server.TargetId.flag c)] } := by
  refine ⟨alGet_alSet_ne _ pn qn dir hne, ?_, fun _ hb => Or.inl hb⟩
  intro b hb
  rcases mem_append_single hb with hm | hm
  · exact Or.inl hm
  · exact Or.inr (by rw [hm])

theorem frame_bind_override (pn qn en dir : String) (mid : Server.PlanState)
    (hne : qn ≠ pn) :
    FrameAt pn qn mid
      { mid with
        actions := alSet mid.actions qn dir,
        assignedEnemies := mid.assignedEnemies ++ [en],
        overrideBindings :=
          mid.overrideBindings ++ [(qn, Server.TargetId.enemy en)] } := by
  refine ⟨alGet_alSet_ne _ pn qn dir hne, fun _ hb => Or.inl hb, ?_⟩
  intro b hb
  rcases mem_append_single hb with hm | hm
  · exact Or.inl hm
  · exact Or.inr (by rw [hm])

theorem applyDefence_frame (pn : String) (w : World) (rt : RouteFn)
    (q o : Player) (st st2 : Server.PlanState) (hne : q.name ≠ pn)
    (h : Server.applyDefence w rt q o st = some st2) :
    FrameAt pn q.name st st2 := by
  unfold Server.applyDefence at h
  rcases hd : Server.defence w rt q o with _ | ⟨dir, clr⟩
  · rw [hd] at h; cases h
  · rw [hd] at h
    dsimp only at h
    generalize hg : (if clr = true then
        { st with defenceTargets := alDel st.defenceTargets q.name }
      else st) = mid at h
    have hmid : FrameAt pn q.name st mid := by
      rw [← hg]
      split
      · exact frameAt_dt pn q.name st _
      · exact frameAt_refl pn q.name st
    split_ifs at h with hdir
    · cases h
      exact frameAt_trans hmid (frame_bind_enemy pn q.name o.name dir mid hne)
    · cases h
      exact hmid

theorem defenceTask_frame (pn : String) (w : World) (rt : RouteFn)
    (opponents : List Player) (q : Player) (st st2 : Server.PlanState)
    (hne : q.name ≠ pn)
    (h : Server.defenceTask w rt opponents q st = some st2) :
    FrameAt pn q.name st st2 := by
  unfold Server.defenceTask at h
  dsimp only at h
  split_ifs at h with h1
  · cases h; exact frameAt_refl pn q.name st
  · rcases hs : (match alGet st.defenceTargets q.name with
        | some n => Server.stickyLookup w q.team
            (opponents.filter fun op =>
              decide (op.name ∉ st.assignedEnemies)) n
        | none => none) with _ | o
    · rw [hs] at h
      rcases hn : Server.newDefenceTarget w rt q
          (opponents.filter fun op =>
            decide (op.name ∉ st.assignedEnemies))
          (alGet st.defenceTargets q.name) with _ | o2
      · rw [hn] at h
        cases h
        exact frameAt_dt pn q.name st _
      · rw [hn] at h
        exact frameAt_trans (frameAt_dt pn q.name st _)
          (applyDefence_frame pn w rt q o2 _ st2 hne h)
    · rw [hs] at h
      exact applyDefence_frame pn w rt q o st st2 hne h

theorem scoringTask_frame (pn : String) (w : World) (rt : RouteFn)
    (opponents : List Player) (enemy_flags : List Flag) (q : Player)
    (st st2 : Server.PlanState) (hne : q.name ≠ pn)
    (h : Server.scoringTask w rt opponents enemy_flags q st = some st2) :
    FrameAt pn q.name st st2 := by
  unfold Server.scoringTask at h
  dsimp only at h
  split_ifs at h with h1 h2
  · cases h; exact frameAt_refl pn q.name st
  · cases h; exact frameAt_refl pn q.name st
  · rcases hb : Server.scoringBestFlag w rt opponents
        (enemy_flags.filter fun f => decide (f.pos ∉ st.assignedFlags))
        q.pos with _ | flag
    · rw [hb] at h; cases h; exact frameAt_refl pn q.name st
    · rw [hb] at h
      dsimp only at h
      rcases hsc : Server.scoring w rt q (some flag) with _ | ⟨dir, clr⟩
      · rw [hsc] at h; cases h
      · rw [hsc] at h
        dsimp only at h
        generalize hg : (if clr = true then
            { st with defenceTargets := alDel st.defenceTargets q.name }
          else st) = mid at h
        have hmid : FrameAt pn q.name st mid := by
          rw [← hg]
          split
          · exact frameAt_dt pn q.name st _
          · exact frameAt_refl pn q.name st
        split_ifs at h with hdir
        · cases h
          exact frameAt_trans hmid
            (frame_bind_flag pn q.name dir flag.pos mid hne)
        · cases h
          exact hmid

theorem applySaving_frame (pn : String) (w : World) (rt : RouteFn)
    (q : Player) (st : Server.PlanState) (hne : q.name ≠ pn) :
    FrameAt pn q.name st (Server.applySaving w rt q st) := by
  unfold Server.applySaving
  dsimp only
  split
  · refine ⟨alGet_alSet_ne _ pn q.name _ hne, fun _ hb => Or.inl hb, ?_⟩
    intro b hb
    rcases List.mem_append.mp hb with hm | hm
    · exact Or.inl hm
    · rcases hr : (Server.savingResult w rt q).2 with _ | c
      · rw [hr] at hm; cases hm
      · rw [hr] at hm
        rw [List.mem_singleton] at hm
        exact Or.inr (by rw [hm])
  · exact frameAt_refl pn q.name st

theorem overrideStage_frame (pn : String) (w : World) (rt : RouteFn)
    (mpg : List Player) (fc : Option Player) (mpc : Nat) (q : Player)
    (st st2 : Server.PlanState) (hne : q.name ≠ pn)
    (h : Server.overrideStage w rt mpg fc mpc q st = some st2) :
    FrameAt pn q.name st st2 := by
  unfold Server.overrideStage at h
  rcases fc with _ | carrier
  · dsimp only at h
    split_ifs at h with h1 h2 h3 h4 h5
    · cases h; exact applySaving_frame pn w rt q st hne
    · cases h; exact applySaving_frame pn w rt q st hne
    · cases h; exact frameAt_refl pn q.name st
    · cases h; exact applySaving_frame pn w rt q st hne
    · cases h; exact frameAt_refl pn q.name st
    · cases h; exact frameAt_refl pn q.name st
  · dsimp only at h
    rcases hd : Server.defence w rt q carrier with _ | ⟨dir, clr⟩
    · rw [hd] at h; cases h
    · rw [hd] at h
      dsimp only at h
      generalize hg : (if clr = true then
          { st with defenceTargets := alDel st.defenceTargets q.name }
        else st) = mid at h
      have hmid : FrameAt pn q.name st mid := by
        rw [← hg]
        split
        · exact frameAt_dt pn q.name st _
        · exact frameAt_refl pn q.name st
      split_ifs at h with hdir
      · cases h
        exact frameAt_trans hmid
          (frame_bind_override pn q.name carrier.name dir mid hne)
      · cases h
        exact hmid

theorem fallbackStage_frame (pn : String) (rt : RouteFn)
    (enemy_flags : List Flag) (q : Player) (st : Server.PlanState)
    (hne : q.name ≠ pn) :
    FrameAt pn q.name st (Server.fallbackStage rt enemy_flags q st) := by
  unfold Server.fallbackStage
  dsimp only
  generalize hg : (if (!alHas st.actions q.name) = true then
      match Server.fallbackFlagLoop rt q.pos enemy_flags with
      | some dir => { st with actions := alSet st.actions q.name dir }
      | none => st
    else st) = mid
  have hmid : FrameAt pn q.name st mid := by
    rw [← hg]
    split
    · rcases Server.fallbackFlagLoop rt q.pos enemy_flags with _ | dir
      · exact frameAt_refl pn q.name st
      · exact ⟨alGet_alSet_ne _ pn q.name dir hne,
          fun _ hb => Or.inl hb, fun _ hb => Or.inl hb⟩
    · exact frameAt_refl pn q.name st
  split
  · exact frameAt_trans hmid ⟨alGet_alSet_ne _ pn q.name _ hne,
      fun _ hb => Or.inl hb, fun _ hb => Or.inl hb⟩
  · exact hmid

theorem planPlayer_frame (pn : String) (w : World) (rt : RouteFn)
    (opponents : List Player) (enemy_flags : List Flag)
    (assignments : List (String × String)) (fc : Option Player) (mpc : Nat)
    (mpg : List Player) (q : Player) (st st2 : Server.PlanState)
    (hne : q.name ≠ pn)
    (h : Server.planPlayer w rt opponents enemy_flags assignments fc mpc mpg
      q st = some st2) :
    FrameAt pn q.name st st2 := by
  unfold Server.planPlayer at h
  split_ifs at h with hhas
  · cases h; exact frameAt_refl pn q.name st
  · dsimp only at h
    rcases hat : (if (match alGet assignments q.name with
          | some t => t
          | none => "scoring") = "defence" then
        Server.defenceTask w rt opponents q st
      else if (match alGet assignments q.name with
          | some t => t
          | none => "scoring") = "scoring" then
        Server.scoringTask w rt opponents enemy_flags q st
      else some st) with _ | st_a
    · rw [hat] at h; cases h
    · rw [hat] at h
      dsimp only at h
      have hframe1 : FrameAt pn q.name st st_a := by
        split_ifs at hat with hd hs
        · exact defenceTask_frame pn w rt opponents q st st_a hne hat
        · exact scoringTask_frame pn w rt opponents enemy_flags q st st_a
            hne hat
        · cases hat; exact frameAt_refl pn q.name st
      rcases hov : Server.overrideStage w rt mpg fc mpc q st_a with _ | st_b
      · rw [hov] at h; cases h
      · rw [hov] at h
        dsimp only at h
        cases h
        exact frameAt_trans
          (frameAt_trans hframe1
            (overrideStage_frame pn w rt mpg fc mpc q st_a st_b hne hov))
          (fallbackStage_frame pn rt enemy_flags q st_b hne)

theorem planLoop_frame (pn : String) (w : World) (rt : RouteFn)
    (opponents : List Player) (enemy_flags : List Flag)
    (assignments : List (String × String)) (fc : Option Player) (mpc : Nat)
    (mpg : List Player) :
    ∀ (l : List Player) (st res : Server.PlanState),
      (∀ q ∈ l, q.name ≠ pn) →
      Server.planLoop w rt opponents enemy_flags assignments fc mpc mpg l
        st = some res →
      alGet res.actions pn = alGet st.actions pn ∧
      (∀ b ∈ res.poolBindings, b ∈ st.poolBindings ∨ b.1 ≠ pn) ∧
      (∀ b ∈ res.overrideBindings, b ∈ st.overrideBindings ∨ b.1 ≠ pn) := by
  intro l
  induction l with
  | nil =>
    intro st res _ h
    cases h
    exact ⟨rfl, fun _ hb => Or.inl hb, fun _ hb => Or.inl hb⟩
  | cons q rest ih =>
    intro st res hl h
    unfold Server.planLoop at h
    rcases hp : Server.planPlayer w rt opponents enemy_flags assignments fc
        mpc mpg q st with _ | stq
    · rw [hp] at h; cases h
    · rw [hp] at h
      have hqne : q.name ≠ pn := hl q (List.mem_cons_self q rest)
      have hf := planPlayer_frame pn w rt opponents enemy_flags assignments
        fc mpc mpg q st stq hqne hp
      have hr := ih stq res
        (fun q2 hq2 => hl q2 (List.mem_cons_of_mem q hq2)) h
      refine ⟨hr.1.trans hf.1, ?_, ?_⟩
      · intro b hb
        rcases hr.2.1 b hb with hm | hm
        · rcases hf.2.1 b hm with hm2 | hm2
          · exact Or.inl hm2
          · exact Or.inr (hm2 ▸ hqne)
        · exact Or.inr hm
      · intro b hb
        rcases hr.2.2 b hb with hm | hm
        · rcases hf.2.2 b hm with hm2 | hm2
          · exact Or.inl hm2
          · exact Or.inr (hm2 ▸ hqne)
        · exact Or.inr hm

/-- C3: a flag-carrying free unit is handled exclusively by the RETURN
pass - its action in the finished tick is exactly the return-branch
direction toward my_targets[0] (none only when no such route exists, in
which case it holds while still never being reassigned) - and no
defence, scoring or rescue binding of this tick carries its name. -/
theorem C3_return_role_exclusive :
    ∀ (w : World) (rt : RouteFn) (dt0 : List (String × String))
      (p : Player) (res : Server.PlanState),
      (w.players.map Player.name).Nodup →
      p ∈ w.players → p.mine = true → p.inPrison = false →
      p.hasFlag = true →
      Server.plan_next_actions w rt dt0 = some res →
      alGet res.actions p.name = alGet (Server.returnActions w rt) p.name ∧
      ∀ b ∈ res.poolBindings ++ res.overrideBindings, b.1 ≠ p.name := by
  intro w rt dt0 p res hnodup hmem hmine hprison hflag hplan
  have hnames : ∀ q ∈ listPlayers w true (some false) (some false),
      q.name ≠ p.name := by
    intro q hq hqname
    have hq2 := List.mem_filter.mp hq
    have hqp : q = p :=
      List.inj_on_of_nodup_map hnodup hq2.1 hmem hqname
    have : q.hasFlag = false := by
      have := hq2.2
      simp only [optMatch, Bool.and_eq_true, beq_iff_eq] at this
      exact this.2.symm
    rw [hqp, hflag] at this
    cases this
  unfold Server.plan_next_actions at hplan
  dsimp only at hplan
  have h := planLoop_frame p.name w rt
    (listPlayers w false (some false) none)
    (listFlags w false (some true))
    (Server.planAssignments w)
    (Server.flagCarrierInMyTerritory w)
    (listPlayers w true (some true) none).length
    (listPlayers w true (some false) (some false))
    (listPlayers w true (some false) (some false))
    _ res hnames hplan
  refine ⟨h.1, ?_⟩
  intro b hb
  rcases List.mem_append.mp hb with hm | hm
  · rcases h.2.1 b hm with hm2 | hm2
    · cases hm2
    · exact hm2
  · rcases h.2.2 b hm with hm2 | hm2
    · cases hm2
    · exact hm2

/-- C3 witness: in exW3 the sole unit carries a flag; its action is the
return-branch direction "left" toward the delivery region and no binding
carries its name. -/
theorem C3_return_role_exclusive_witness :
    (Server.plan_next_actions exW3 (bfsRoute exW3) []).map
        (fun r => alGet r.actions "L0") =
      some (alGet (Server.returnActions exW3 (bfsRoute exW3)) "L0") ∧
    alGet (Server.returnActions exW3 (bfsRoute exW3)) "L0" = some "left" := by
  constructor
  · have h := C3_return_role_exclusive exW3 (bfsRoute exW3) []
      (mkP "L0" 3 0 "L" true false true)
      ((Server.plan_next_actions exW3 (bfsRoute exW3) []).get (by decide))
      (by decide) (by decide) (by decide) (by decide) (by decide)
      (by rw [Option.some_get])
    rw [show Server.plan_next_actions exW3 (bfsRoute exW3) [] =
      some ((Server.plan_next_actions exW3 (bfsRoute exW3) []).get
        (by decide)) from (Option.some_get _).symm]
    simp only [Option.map_some']
    exact congrArg some h.1
  · decide

/-- C4, amended: within the defence task branch the sticky re-bind does
hold - when the unit's tracked opponent name is found among the
still-available opponents and that opponent is still inside enemy
territory, the branch chases exactly that opponent, regardless of any
closer opponent, without re-selection. The re-bind is only lost when an
earlier-processed unit already took the opponent from this tick's pool
(the counterexample), when the unit is not given the defence task, or
when an override fires. -/
theorem C4_sticky_rebind :
    ∀ (w : World) (rt : RouteFn) (opponents : List Player) (p : Player)
      (st : Server.PlanState) (n : String) (o : Player),
      alGet st.defenceTargets p.name = some n →
      (opponents.filter fun op =>
        decide (op.name ∉ st.assignedEnemies)).find?
          (fun opp => opp.name == n) = some o →
      Server.is_in_enemy_territory w p.team o.pos = true →
      Server.defenceTask w rt opponents p st =
        Server.applyDefence w rt p o st := by
  intro w rt opponents p st n o hcur hfind henemy
  have havail : (opponents.filter fun op =>
      decide (op.name ∉ st.assignedEnemies)) ≠ [] := by
    intro h0
    rw [h0] at hfind
    cases hfind
  simp only [Server.defenceTask, Server.stickyLookup, hcur, hfind,
    if_neg havail, henemy, if_true]

/-- C4 witness for the amended statement: in exW4, with R0 still in the
pool, defender L1's sticky target R0 is kept. -/
theorem C4_sticky_rebind_witness :
    Server.defenceTask exW4 (bfsRoute exW4)
      [mkP "R0" 4 0 "R" false false false, mkP "R1" 4 2 "R" false false false]
      (mkP "L1" 0 2 "L" false false true)
      ⟨[], [], [], [("L1","R0")], [], []⟩ =
    Server.applyDefence exW4 (bfsRoute exW4)
      (mkP "L1" 0 2 "L" false false true)
      (mkP "R0" 4 0 "R" false false false)
      ⟨[], [], [], [("L1","R0")], [], []⟩ :=
  C4_sticky_rebind exW4 (bfsRoute exW4)
    [mkP "R0" 4 0 "R" false false false, mkP "R1" 4 2 "R" false false false]
    (mkP "L1" 0 2 "L" false false true)
    ⟨[], [], [], [("L1","R0")], [], []⟩ "R0"
    (mkP "R0" 4 0 "R" false false false)
    (by decide) (by decide) (by decide)

/-- C4 counterexample: in exW4 defender L1 enters the tick sticky-bound to
R0, R0 is still active and still in enemy territory, yet the resolution
pass re-binds L1 to R1 - the earlier-processed defender L0 removed R0
from the pool first. -/
theorem C4_counterexample :
    ∃ res, Server.plan_next_actions exW4 (bfsRoute exW4) [("L1","R0")] =
        some res ∧
      alGet res.defenceTargets "L1" = some "R1" ∧
      ("L1", Server.TargetId.enemy "R1") ∈ res.poolBindings ∧
      ("L1", Server.TargetId.enemy "R0") ∉
        res.poolBindings ++ res.overrideBindings ∧
      mkP "R0" 4 0 "R" false false false ∈
        listPlayers exW4 false (some false) none ∧
      Server.is_in_enemy_territory exW4 "L" ((4:Int),(0:Int)) = true := by
  refine ⟨_, rfl, ?_, ?_, ?_, ?_, ?_⟩ <;> decide

/-- C8: at the failing input exW8 the code's target selection - which only
inspects the LAST own flag's predicted route, here the walled-off flag at
(0,2) - chooses no crossing point, while the per-flag selection the claim
and the spec describe (and the violet variant implements) yields (4,0)
from the first flag's route: the dedented if detached the intersection
logic from the flag loop. -/
theorem C8_last_flag_only :
    3 ≤ exW8initial.length ∧
    exW8R0.hasFlag = false ∧
    Server.is_in_my_territory exW8 "L" ((6:Int),(0:Int)) = false ∧
    Server.defenceTargetSel exW8 (bfsRoute exW8) exW8L0 exW8R0 exW8initial =
      some none ∧
    defenceBestIntersectionSpec exW8 (bfsRoute exW8) exW8initial
      ((6:Int),(0:Int)) = some (4,0) := by decide

/-- C10: in src/server.py the dedented return-empty makes improved_route
yield the empty list for every in-bounds src different from dst, for any
router and obstacle set, while the otherwise-identical violet variant
does reach its route_to call (shown on the empty corridor exWV). -/
theorem C10_server_route_always_empty :
    (∀ (w : World) (rt : RouteFn) (src dst : Cell) (extra : List Cell),
      inBounds w src = true → inBounds w dst = true → src ≠ dst →
      Server.improved_route w rt src dst extra = []) ∧
    Violet.improved_route exWV (bfsRoute exWV) (0,0) (2,0) [] =
      [(0,0),(1,0),(2,0)] := by
  constructor
  · intro w rt src dst extra hs hd hne
    unfold Server.improved_route
    simp only [hs, hd, Bool.not_true, Bool.false_eq_true, if_false,
      if_neg hne]
    split <;> [rfl; skip]
    split <;> [rfl; skip]
    split <;> rfl
  · decide

/-- C10 witness: the general empty-result statement applied to the concrete
in-bounds pair (0,0), (2,0) of exWV. -/
theorem C10_witness :
    Server.improved_route exWV (bfsRoute exWV) (0,0) (2,0) [] = [] :=
  C10_server_route_always_empty.1 exWV (bfsRoute exWV) (0,0) (2,0) []
    (by decide) (by decide) (by decide)

theorem nodup_append_single {α : Type _} {l : List α} {a : α}
    (h1 : l.Nodup) (h2 : a ∉ l) : (l ++ [a]).Nodup := by
  rw [List.nodup_append]
  refine ⟨h1, List.nodup_singleton a, ?_⟩
  intro x hx hxa
  rw [List.mem_singleton] at hxa
  subst hxa
  exact h2 hx

theorem targetAssigned_mono {st st2 : Server.PlanState}
    (he : ∀ n, n ∈ st.assignedEnemies → n ∈ st2.assignedEnemies)
    (hf : ∀ c, c ∈ st.assignedFlags → c ∈ st2.assignedFlags)
    (b : String × Server.TargetId) (h : TargetAssigned st b) :
    TargetAssigned st2 b := by
  rcases b with ⟨nm, t⟩
  cases t with
  | enemy n => exact he n h
  | flag c => exact hf c h
  | prison c => exact h.elim

theorem poolInv_grow {st st2 : Server.PlanState}
    (hP : st2.poolBindings = st.poolBindings)
    (he : ∀ n, n ∈ st.assignedEnemies → n ∈ st2.assignedEnemies)
    (hf : ∀ c, c ∈ st.assignedFlags → c ∈ st2.assignedFlags)
    (hinv : PoolInv st) : PoolInv st2 := by
  constructor
  · rw [hP]; exact hinv.1
  · intro b hb
    rw [hP] at hb
    exact targetAssigned_mono he hf b (hinv.2 b hb)

theorem poolInv_bind_enemy (pn en : String) (acts : List (String × String))
    (st : Server.PlanState) (hfresh : en ∉ st.assignedEnemies)
    (hinv : PoolInv st) :
    PoolInv { st with
      actions := acts,
      assignedEnemies := st.assignedEnemies ++ [en],
      poolBindings :=
        st.poolBindings ++ [(pn, Server.TargetId.enemy en)] } := by
  constructor
  · show ((st.poolBindings ++
      [(pn, Server.TargetId.enemy en)]).map Prod.snd).Nodup
    simp only [List.map_append, List.map_cons, List.map_nil]
    refine nodup_append_single hinv.1 ?_
    intro hm
    rcases List.mem_map.mp hm with ⟨b, hb, hby⟩
    rcases b with ⟨nm2, t⟩
    dsimp only at hby
    subst hby
    exact hfresh (hinv.2 (nm2, Server.TargetId.enemy en) hb)
  · intro b hb
    have hb2 : b ∈ st.poolBindings ++ [(pn, Server.TargetId.enemy en)] := hb
    rcases List.mem_append.mp hb2 with hb3 | hb3
    · refine targetAssigned_mono ?_ ?_ b (hinv.2 b hb3)
      · intro n hn
        show n ∈ st.assignedEnemies ++ [en]
        exact List.mem_append_left _ hn
      · intro c hc
        show c ∈ st.assignedFlags
        exact hc
    · rw [List.mem_singleton] at hb3
      subst hb3
      show en ∈ st.assignedEnemies ++ [en]
      exact List.mem_append_right _ (List.mem_singleton.mpr rfl)

theorem poolInv_bind_flag (pn : String) (c : Cell)
    (acts : List (String × String)) (st : Server.PlanState)
    (hfresh : c ∉ st.assignedFlags) (hinv : PoolInv st) :
    PoolInv { st with
      actions := acts,
      assignedFlags := st.assignedFlags ++ [c],
      poolBindings :=
        st.poolBindings ++ [(pn, Server.TargetId.flag c)] } := by
  constructor
  · show ((st.poolBindings ++
      [(pn, Server.TargetId.flag c)]).map Prod.snd).Nodup
    simp only [List.map_append, List.map_cons, List.map_nil]
    refine nodup_append_single hinv.1 ?_
    intro hm
    rcases List.mem_map.mp hm with ⟨b, hb, hby⟩
    rcases b with ⟨nm2, t⟩
    dsimp only at hby
    subst hby
    exact hfresh (hinv.2 (nm2, Server.TargetId.flag c) hb)
  · intro b hb
    have hb2 : b ∈ st.poolBindings ++ [(pn, Server.TargetId.flag c)] := hb
    rcases List.mem_append.mp hb2 with hb3 | hb3
    · refine targetAssigned_mono ?_ ?_ b (hinv.2 b hb3)
      · intro n hn
        show n ∈ st.assignedEnemies
        exact hn
      · intro d hd
        show d ∈ st.assignedFlags ++ [c]
        exact List.mem_append_left _ hd
    · rw [List.mem_singleton] at hb3
      subst hb3
      show c ∈ st.assignedFlags ++ [c]
      exact List.mem_append_right _ (List.mem_singleton.mpr rfl)

theorem stickyLookup_mem (w : World) (team : String) (av : List Player)
    (n : String) (o : Player)
    (h : Server.stickyLookup w team av n = some o) : o ∈ av := by
  unfold Server.stickyLookup at h
  rcases hf : av.find? (fun opp => opp.name == n) with _ | o2
  · rw [hf] at h; exact Option.noConfusion h
  · rw [hf] at h
    dsimp only at h
    split_ifs at h
    · injection h with h2
      subst h2
      exact List.mem_of_find?_eq_some hf

theorem defenceCandidateList_subset (w : World) (p : Player)
    (av : List Player) (cur : Option String) (o : Player)
    (h : o ∈ Server.defenceCandidateList w p av cur) : o ∈ av := by
  unfold Server.defenceCandidateList at h
  dsimp only at h
  split_ifs at h
  · exact List.mem_of_mem_filter (List.mem_of_mem_filter h)
  · exact List.mem_of_mem_filter (List.mem_of_mem_filter h)

theorem newDefenceStep_mem (w : World) (rt : RouteFn) (p : Player)
    (L : List Player) (st : Option (Player × Nat)) (opp : Player)
    (hopp : opp ∈ L)
    (hst : ∀ q m, st = some (q, m) → q ∈ L) :
    ∀ q m, Server.newDefenceStep w rt p st opp = some (q, m) → q ∈ L := by
  intro q m hq
  unfold Server.newDefenceStep at hq
  rcases st with _ | ⟨q2, m2⟩
  · dsimp only at hq
    split_ifs at hq with hp1
    · injection hq with h2
      injection h2 with ha hb
      exact ha ▸ hopp
  · dsimp only at hq
    split_ifs at hq with hp1 hlt
    · injection hq with h2
      injection h2 with ha hb
      exact ha ▸ hopp
    · injection hq with h2
      injection h2 with ha hb
      exact ha ▸ hst q2 m2 rfl
    · injection hq with h2
      injection h2 with ha hb
      exact ha ▸ hst q2 m2 rfl

theorem newDefenceTarget_mem (w : World) (rt : RouteFn) (p : Player)
    (av : List Player) (cur : Option String) (o : Player)
    (h : Server.newDefenceTarget w rt p av cur = some o) : o ∈ av := by
  unfold Server.newDefenceTarget at h
  rcases Option.map_eq_some'.mp h with ⟨pr, hfold, hfst⟩
  have hinv := foldl_inv_mem
    (fun (st : Option (Player × Nat)) => ∀ q m, st = some (q, m) →
      q ∈ Server.defenceCandidateList w p av cur)
    (Server.newDefenceStep w rt p)
    (Server.defenceCandidateList w p av cur) none
    (fun q m hq => Option.noConfusion hq)
    (fun st x hx hst => newDefenceStep_mem w rt p _ st x hx hst)
  have hmem : pr.1 ∈ Server.defenceCandidateList w p av cur :=
    hinv pr.1 pr.2 (by rw [hfold])
  exact defenceCandidateList_subset w p av cur _ (hfst ▸ hmem)

theorem scoringFlagStep_mem (w : World) (rt : RouteFn)
    (opponents : List Player) (start : Cell) (L : List Flag)
    (stb : Option Flag × Int) (flag : Flag) (hflag : flag ∈ L)
    (hst : ∀ g, stb.1 = some g → g ∈ L) :
    ∀ g, (Server.scoringFlagStep w rt opponents start stb flag).1 = some g →
      g ∈ L := by
  intro g hg
  unfold Server.scoringFlagStep at hg
  dsimp only at hg
  split_ifs at hg with hp1 hlt
  · dsimp only at hg
    injection hg with h2
    subst h2
    exact hflag
  · exact hst g hg
  · exact hst g hg

theorem scoringBestFlag_mem (w : World) (rt : RouteFn)
    (opponents : List Player) (fl : List Flag) (start : Cell) (f : Flag)
    (h : Server.scoringBestFlag w rt opponents fl start = some f) :
    f ∈ fl := by
  unfold Server.scoringBestFlag at h
  have hinv := foldl_inv_mem
    (fun (stb : Option Flag × Int) => ∀ g, stb.1 = some g → g ∈ fl)
    (Server.scoringFlagStep w rt opponents start) fl
    ((none : Option Flag), (-1 : Int))
    (fun g hg => Option.noConfusion hg)
    (fun stb flag hflag hst =>
      scoringFlagStep_mem w rt opponents start fl stb flag hflag hst)
  exact hinv f h

theorem applyDefence_poolInv (w : World) (rt : RouteFn) (p o : Player)
    (st st2 : Server.PlanState) (hfresh : o.name ∉ st.assignedEnemies)
    (hinv : PoolInv st) (h : Server.applyDefence w rt p o st = some st2) :
    PoolInv st2 := by
  unfold Server.applyDefence at h
  rcases hd : Server.defence w rt p o with _ | ⟨dir, clr⟩
  · rw [hd] at h; cases h
  · rw [hd] at h
    dsimp only at h
    generalize hg : (if clr = true then
        { st with defenceTargets := alDel st.defenceTargets p.name }
      else st) = mid at h
    have hmid : PoolInv mid ∧ mid.assignedEnemies = st.assignedEnemies := by
      rw [← hg]
      split
      · exact ⟨poolInv_grow rfl (fun n hn => hn) (fun c hc => hc) hinv, rfl⟩
      · exact ⟨hinv, rfl⟩
    split_ifs at h with hdir
    · cases h
      exact poolInv_bind_enemy p.name o.name (alSet mid.actions p.name dir)
        mid (by rw [hmid.2]; exact hfresh) hmid.1
    · cases h
      exact hmid.1

theorem defenceTask_poolInv (w : World) (rt : RouteFn)
    (opponents : List Player) (p : Player) (st st2 : Server.PlanState)
    (hinv : PoolInv st)
    (h : Server.defenceTask w rt opponents p st = some st2) :
    PoolInv st2 := by
  unfold Server.defenceTask at h
  dsimp only at h
  split_ifs at h with h1
  · cases h; exact hinv
  · rcases hs : (match alGet st.defenceTargets p.name with
        | some n => Server.stickyLookup w p.team
            (opponents.filter fun op =>
              decide (op.name ∉ st.assignedEnemies)) n
        | none => none) with _ | o
    · rw [hs] at h
      rcases hn : Server.newDefenceTarget w rt p
          (opponents.filter fun op =>
            decide (op.name ∉ st.assignedEnemies))
          (alGet st.defenceTargets p.name) with _ | o2
      · rw [hn] at h
        cases h
        exact poolInv_grow rfl (fun n hn2 => hn2) (fun c hc => hc) hinv
      · rw [hn] at h
        dsimp only at h
        have ho2 : o2.name ∉ st.assignedEnemies :=
          of_decide_eq_true ((List.mem_filter.mp
            (newDefenceTarget_mem w rt p _ _ o2 hn)).2)
        exact applyDefence_poolInv w rt p o2
          { st with defenceTargets := alSet st.defenceTargets p.name o2.name }
          st2 ho2
          (poolInv_grow rfl (fun n hn2 => hn2) (fun c hc => hc) hinv) h
    · rw [hs] at h
      have ho : o.name ∉ st.assignedEnemies := by
        have hmem : o ∈ opponents.filter fun op =>
            decide (op.name ∉ st.assignedEnemies) := by
          rcases hcur : alGet st.defenceTargets p.name with _ | n
          · rw [hcur] at hs; exact Option.noConfusion hs
          · rw [hcur] at hs
            exact stickyLookup_mem w p.team _ n o hs
        exact of_decide_eq_true ((List.mem_filter.mp hmem).2)
      exact applyDefence_poolInv w rt p o st st2 ho hinv h

theorem scoringTask_poolInv (w : World) (rt : RouteFn)
    (opponents : List Player) (enemy_flags : List Flag) (p : Player)
    (st st2 : Server.PlanState) (hinv : PoolInv st)
    (h : Server.scoringTask w rt opponents enemy_flags p st = some st2) :
    PoolInv st2 := by
  unfold Server.scoringTask at h
  dsimp only at h
  split_ifs at h with h1 h2
  · cases h; exact hinv
  · cases h; exact hinv
  · rcases hb : Server.scoringBestFlag w rt opponents
        (enemy_flags.filter fun f => decide (f.pos ∉ st.assignedFlags))
        p.pos with _ | flag
    · rw [hb] at h; cases h; exact hinv
    · rw [hb] at h
      dsimp only at h
      rcases hsc : Server.scoring w rt p (some flag) with _ | ⟨dir, clr⟩
      · rw [hsc] at h; cases h
      · rw [hsc] at h
        dsimp only at h
        generalize hg : (if clr = true then
            { st with defenceTargets := alDel st.defenceTargets p.name }
          else st) = mid at h
        have hmid : PoolInv mid ∧ mid.assignedFlags = st.assignedFlags := by
          rw [← hg]
          split
          · exact ⟨poolInv_grow rfl (fun n hn => hn) (fun c hc => hc) hinv,
              rfl⟩
          · exact ⟨hinv, rfl⟩
        have hfr : flag.pos ∉ st.assignedFlags :=
          of_decide_eq_true ((List.mem_filter.mp
            (scoringBestFlag_mem w rt opponents _ p.pos flag hb)).2)
        split_ifs at h with hdir
        · cases h
          exact poolInv_bind_flag p.name flag.pos
            (alSet mid.actions p.name dir) mid
            (by rw [hmid.2]; exact hfr) hmid.1
        · cases h
          exact hmid.1

theorem applySaving_poolInv (w : World) (rt : RouteFn) (p : Player)
    (st : Server.PlanState) (hinv : PoolInv st) :
    PoolInv (Server.applySaving w rt p st) := by
  unfold Server.applySaving
  dsimp only
  split
  · exact poolInv_grow rfl (fun n hn => hn) (fun c hc => hc) hinv
  · exact hinv

theorem overrideStage_poolInv (w : World) (rt : RouteFn)
    (mpg : List Player) (fc : Option Player) (mpc : Nat) (p : Player)
    (st st2 : Server.PlanState) (hinv : PoolInv st)
    (h : Server.overrideStage w rt mpg fc mpc p st = some st2) :
    PoolInv st2 := by
  unfold Server.overrideStage at h
  rcases fc with _ | carrier
  · dsimp only at h
    split_ifs at h with h1 h2 h3 h4 h5
    · cases h; exact applySaving_poolInv w rt p st hinv
    · cases h; exact applySaving_poolInv w rt p st hinv
    · cases h; exact hinv
    · cases h; exact applySaving_poolInv w rt p st hinv
    · cases h; exact hinv
    · cases h; exact hinv
  · dsimp only at h
    rcases hd : Server.defence w rt p carrier with _ | ⟨dir, clr⟩
    · rw [hd] at h; cases h
    · rw [hd] at h
      dsimp only at h
      generalize hg : (if clr = true then
          { st with defenceTargets := alDel st.defenceTargets p.name }
        else st) = mid at h
      have hmid : PoolInv mid := by
        rw [← hg]
        split
        · exact poolInv_grow rfl (fun n hn => hn) (fun c hc => hc) hinv
        · exact hinv
      split_ifs at h with hdir
      · cases h
        refine poolInv_grow ?_ ?_ ?_ hmid
        · rfl
        · intro n hn
          show n ∈ mid.assignedEnemies ++ [carrier.name]
          exact List.mem_append_left _ hn
        · intro c hc
          exact hc
      · cases h
        exact hmid

theorem fallbackStage_poolInv (rt : RouteFn) (enemy_flags : List Flag)
    (p : Player) (st : Server.PlanState) (hinv : PoolInv st) :
    PoolInv (Server.fallbackStage rt enemy_flags p st) := by
  unfold Server.fallbackStage
  dsimp only
  generalize hg : (if (!alHas st.actions p.name) = true then
      match Server.fallbackFlagLoop rt p.pos enemy_flags with
      | some dir => { st with actions := alSet st.actions p.name dir }
      | none => st
    else st) = mid
  have hmid : PoolInv mid := by
    rw [← hg]
    split
    · rcases Server.fallbackFlagLoop rt p.pos enemy_flags with _ | dir
      · exact hinv
      · exact poolInv_grow rfl (fun n hn => hn) (fun c hc => hc) hinv
    · exact hinv
  split
  · exact poolInv_grow rfl (fun n hn => hn) (fun c hc => hc) hmid
  · exact hmid

theorem planPlayer_poolInv (w : World) (rt : RouteFn)
    (opponents : List Player) (enemy_flags : List Flag)
    (assignments : List (String × String)) (fc : Option Player) (mpc : Nat)
    (mpg : List Player) (p : Player) (st st2 : Server.PlanState)
    (hinv : PoolInv st)
    (h : Server.planPlayer w rt opponents enemy_flags assignments fc mpc mpg
      p st = some st2) : PoolInv st2 := by
  unfold Server.planPlayer at h
  split_ifs at h with hhas
  · cases h; exact hinv
  · dsimp only at h
    rcases hat : (if (match alGet assignments p.name with
          | some t => t
          | none => "scoring") = "defence" then
        Server.defenceTask w rt opponents p st
      else if (match alGet assignments p.name with
          | some t => t
          | none => "scoring") = "scoring" then
        Server.scoringTask w rt opponents enemy_flags p st
      else some st) with _ | st_a
    · rw [hat] at h; cases h
    · rw [hat] at h
      dsimp only at h
      have hinv1 : PoolInv st_a := by
        split_ifs at hat with hd hs
        · exact defenceTask_poolInv w rt opponents p st st_a hinv hat
        · exact scoringTask_poolInv w rt opponents enemy_flags p st st_a
            hinv hat
        · cases hat; exact hinv
      rcases hov : Server.overrideStage w rt mpg fc mpc p st_a with _ | st_b
      · rw [hov] at h; cases h
      · rw [hov] at h
        dsimp only at h
        cases h
        exact fallbackStage_poolInv rt enemy_flags p st_b
          (overrideStage_poolInv w rt mpg fc mpc p st_a st_b hinv1 hov)

theorem planLoop_poolInv (w : World) (rt : RouteFn)
    (opponents : List Player) (enemy_flags : List Flag)
    (assignments : List (String × String)) (fc : Option Player) (mpc : Nat)
    (mpg : List Player) (ps : List Player) (st st2 : Server.PlanState)
    (hinv : PoolInv st)
    (h : Server.planLoop w rt opponents enemy_flags assignments fc mpc mpg
      ps st = some st2) : PoolInv st2 := by
  induction ps generalizing st with
  | nil =>
    unfold Server.planLoop at h
    cases h
    exact hinv
  | cons p rest ih =>
    unfold Server.planLoop at h
    rcases hp : Server.planPlayer w rt opponents enemy_flags assignments fc
        mpc mpg p st with _ | stm
    · rw [hp] at h; cases h
    · rw [hp] at h
      dsimp only at h
      exact ih stm
        (planPlayer_poolInv w rt opponents enemy_flags assignments fc mpc
          mpg p st stm hinv hp) h

/-- C1, amended: the pool bindings produced by the defence and scoring
task branches of plan_next_actions are duplicate-free in their targets -
no opponent and no flag is bound to two different own units through the
assigned-enemy and assigned-flag pools (the full-map-lock override
bindings, which bypass the pools, are exempt). -/
theorem C1_pool_bindings_nodup (w : World) (rt : RouteFn)
    (dt0 : List (String × String)) (res : Server.PlanState)
    (h : Server.plan_next_actions w rt dt0 = some res) :
    (res.poolBindings.map Prod.snd).Nodup := by
  unfold Server.plan_next_actions at h
  dsimp only at h
  refine (planLoop_poolInv w rt _ _ _ _ _ _ _ _ _ ?_ h).1
  exact ⟨List.nodup_nil, fun b hb => absurd hb (List.not_mem_nil b)⟩

/-- C1 witness for the amended statement: the pool bindings of exW2's
plan are duplicate-free in their targets. -/
theorem C1_pool_bindings_nodup_witness :
    ((((Server.plan_next_actions exW2 (bfsRoute exW2) []).get
      (by decide)).poolBindings).map Prod.snd).Nodup :=
  C1_pool_bindings_nodup exW2 (bfsRoute exW2) []
    ((Server.plan_next_actions exW2 (bfsRoute exW2) []).get (by decide))
    (by rw [Option.some_get])

theorem minEntry_mem (l : List Adapter.Entry) (e : Adapter.Entry)
    (h : Adapter.minEntry l = some e) : e ∈ l := by
  induction l with
  | nil => exact Option.noConfusion h
  | cons x rest ih =>
    unfold Adapter.minEntry at h
    rcases hm : Adapter.minEntry rest with _ | m
    · rw [hm] at h
      dsimp only at h
      injection h with h2
      subst h2
      exact List.mem_cons_self x rest
    · rw [hm] at h
      dsimp only at h
      split_ifs at h with hlt
      · injection h with h2
        subst h2
        exact List.mem_cons_of_mem x (ih hm)
      · injection h with h2
        subst h2
        exact List.mem_cons_self x rest

theorem removeFirst_subset (e : Adapter.Entry) (l : List Adapter.Entry)
    (b : Adapter.Entry) (h : b ∈ Adapter.removeFirst e l) : b ∈ l := by
  induction l with
  | nil => exact absurd h (List.not_mem_nil b)
  | cons x rest ih =>
    unfold Adapter.removeFirst at h
    split_ifs at h with hx
    · exact List.mem_cons_of_mem x h
    · rcases List.mem_cons.mp h with h2 | h2
      · subst h2
        exact List.mem_cons_self b rest
      · exact List.mem_cons_of_mem x (ih h2)

theorem relaxStep_conn (w : World) (wm : Cell → Int) (dst : Cell)
    (closed2 : List Cell) (current : Cell) (src : Cell)
    (hcur : Connected w wm src current)
    (st : List Adapter.Entry × List (Cell × Int) × List (Cell × Cell))
    (off : Cell) (hoff : off ∈ dirOffsets)
    (hst : ∀ e ∈ st.1, Connected w wm src ((e.2.2.1, e.2.2.2) : Cell)) :
    ∀ e ∈ (Adapter.relaxStep w wm dst closed2 current st off).1,
      Connected w wm src ((e.2.2.1, e.2.2.2) : Cell) := by
  intro e he
  unfold Adapter.relaxStep at he
  dsimp only at he
  split_ifs at he with h1 h2 h3
  · exact hst e he
  · exact hst e he
  · exact hst e he
  · rcases hg : alGet st.2.1 current with _ | gc
    · rw [hg] at he
      exact hst e he
    · rw [hg] at he
      dsimp only at he
      split_ifs at he with hbetter
      · dsimp only at he
        rcases mem_append_single he with hm | hm
        · exact hst e hm
        · subst hm
          have hib : inBounds w (current.1 + off.1, current.2 + off.2) =
              true := by
            cases hh : inBounds w (current.1 + off.1, current.2 + off.2)
            · exact absurd (by simp [hh]) h1
            · rfl
          exact Relation.ReflTransGen.tail hcur ⟨⟨off, hoff, rfl⟩, hib, h3⟩
      · exact hst e he

theorem astarLoop_connected (w : World) (wm : Cell → Int) (src dst : Cell) :
    ∀ (fuel : Nat) (open_set : List Adapter.Entry)
      (gScore : List (Cell × Int)) (cameFrom : List (Cell × Cell))
      (closedSet : List Cell),
      (∀ e ∈ open_set, Connected w wm src ((e.2.2.1, e.2.2.2) : Cell)) →
      Adapter.astarLoop w wm src dst fuel open_set gScore cameFrom
        closedSet ≠ [] →
      Connected w wm src dst := by
  intro fuel
  induction fuel with
  | zero =>
    intro open_set gScore cameFrom closedSet hop hne
    exact absurd rfl hne
  | succ n ih =>
    intro open_set gScore cameFrom closedSet hop hne
    unfold Adapter.astarLoop at hne
    rcases hp : Adapter.popMin open_set with _ | ⟨e, rest⟩
    · rw [hp] at hne
      exact absurd rfl hne
    · rw [hp] at hne
      dsimp only at hne
      have hkey : e ∈ open_set ∧ ∀ b ∈ rest, b ∈ open_set := by
        unfold Adapter.popMin at hp
        rcases hm : Adapter.minEntry open_set with _ | e2
        · rw [hm] at hp
          exact Option.noConfusion hp
        · rw [hm] at hp
          dsimp only at hp
          injection hp with hp2
          injection hp2 with ha hb
          subst ha
          refine ⟨minEntry_mem open_set e2 hm, ?_⟩
          intro b hbm
          rw [← hb] at hbm
          exact removeFirst_subset e2 open_set b hbm
      have hcur : Connected w wm src ((e.2.2.1, e.2.2.2) : Cell) :=
        hop e hkey.1
      split_ifs at hne with hclosed hdst
      · exact ih rest gScore cameFrom closedSet
          (fun b hb => hop b (hkey.2 b hb)) hne
      · exact hdst ▸ hcur
      · refine ih _ _ _ _ ?_ hne
        exact foldl_inv_mem
          (fun (st : List Adapter.Entry × List (Cell × Int) ×
              List (Cell × Cell)) =>
            ∀ e2 ∈ st.1, Connected w wm src ((e2.2.2.1, e2.2.2.2) : Cell))
          (Adapter.relaxStep w wm dst (closedSet ++ [(e.2.2.1, e.2.2.2)])
            (e.2.2.1, e.2.2.2))
          dirOffsets (rest, gScore, cameFrom)
          (fun b hb => hop b (hkey.2 b hb))
          (fun st off hoff hst =>
            relaxStep_conn w wm dst _ _ src hcur st off hoff hst)

/-- In exW9 no chain of passable steps reaches the walled-off centre
(2,2): a last step into it starts on one of the four wall cells, which
can neither be the source (0,0) nor the target of a passable step. -/
theorem exW9_center_unreachable :
    ¬ Connected exW9 (Adapter.build_weight_map exW9 [])
      ((0 : Int), (0 : Int)) ((2 : Int), (2 : Int)) := by
  intro h
  rcases h.cases_tail with heq | ⟨c, hchain, hstep⟩
  · exact absurd heq (by decide)
  · rcases hstep with ⟨⟨off, hoffmem, hc2⟩, hib, hwz⟩
    simp only [dirOffsets, List.mem_cons, List.mem_singleton,
      List.not_mem_nil, or_false] at hoffmem
    rcases c with ⟨cx, cy⟩
    have hcases : (cx = 2 ∧ cy = 3) ∨ (cx = 2 ∧ cy = 1) ∨
        (cx = 3 ∧ cy = 2) ∨ (cx = 1 ∧ cy = 2) := by
      rcases hoffmem with rfl | rfl | rfl | rfl <;>
        · rw [Prod.mk.injEq] at hc2
          dsimp only at hc2
          omega
    rcases hchain.cases_tail with heq2 | ⟨c2, hchain2, hstep2⟩
    · rw [Prod.mk.injEq] at heq2
      rcases hcases with ⟨ha, hb⟩ | ⟨ha, hb⟩ | ⟨ha, hb⟩ | ⟨ha, hb⟩ <;> omega
    · have hwz2 := hstep2.2.2
      rcases hcases with ⟨ha, hb⟩ | ⟨ha, hb⟩ | ⟨ha, hb⟩ | ⟨ha, hb⟩ <;>
        · subst ha
          subst hb
          exact hwz2 (by decide)

/-- C9, amended: the weighted router's contract with the bounds guards
taking precedence over the src = dst shortcut: an out-of-bounds src or
dst yields []; an in-bounds src equal to dst yields [src]; an impassable
endpoint yields []; and when no chain of passable four-neighbour steps
connects src to dst, the search yields []. -/
theorem C9_router_contract :
    (∀ (w : World) (src dst : Cell) (extra : List Cell),
      (inBounds w src = false ∨ inBounds w dst = false) →
      Adapter.improved_route w src dst extra = []) ∧
    (∀ (w : World) (src dst : Cell) (extra : List Cell),
      inBounds w src = true → inBounds w dst = true → src = dst →
      Adapter.improved_route w src dst extra = [src]) ∧
    (∀ (w : World) (src dst : Cell) (extra : List Cell),
      src ≠ dst →
      (Adapter.build_weight_map w extra src = 0 ∨
       Adapter.build_weight_map w extra dst = 0) →
      Adapter.improved_route w src dst extra = []) ∧
    (∀ (w : World) (src dst : Cell) (extra : List Cell),
      ¬ Connected w (Adapter.build_weight_map w extra) src dst →
      src ≠ dst →
      Adapter.improved_route w src dst extra = []) := by
  refine ⟨?_, ?_, ?_, ?_⟩
  · intro w src dst extra hob
    rcases hob with hob | hob
    · simp [Adapter.improved_route, hob]
    · cases hs : inBounds w src
      · simp [Adapter.improved_route, hs]
      · simp [Adapter.improved_route, hs, hob]
  · intro w src dst extra hs hd hsd
    subst hsd
    simp [Adapter.improved_route, hs]
  · intro w src dst extra hsd hwz
    cases hs : inBounds w src
    · simp [Adapter.improved_route, hs]
    · cases hd : inBounds w dst
      · simp [Adapter.improved_route, hs, hd]
      · rcases hwz with hz | hz
        · simp [Adapter.improved_route, hs, hd, hsd, hz]
        · by_cases hz1 : Adapter.build_weight_map w extra src = 0
          · simp [Adapter.improved_route, hs, hd, hsd, hz1]
          · simp [Adapter.improved_route, hs, hd, hsd, hz1, hz]
  · intro w src dst extra hnc hsd
    cases hs : inBounds w src
    · simp [Adapter.improved_route, hs]
    · cases hd : inBounds w dst
      · simp [Adapter.improved_route, hs, hd]
      · by_cases hz1 : Adapter.build_weight_map w extra src = 0
        · simp [Adapter.improved_route, hs, hd, hsd, hz1]
        · by_cases hz2 : Adapter.build_weight_map w extra dst = 0
          · simp [Adapter.improved_route, hs, hd, hsd, hz1, hz2]
          · have hred : Adapter.improved_route w src dst extra =
                Adapter.astarLoop w (Adapter.build_weight_map w extra)
                  src dst (4 * w.width.toNat * w.height.toNat + 8)
                  [(0, 0, src.1, src.2)] [(src, 0)] [] [] := by
              simp [Adapter.improved_route, hs, hd, hsd, hz1, hz2]
            rw [hred]
            by_contra hne
            refine hnc (astarLoop_connected w
              (Adapter.build_weight_map w extra) src dst _ _ _ _ _ ?_ hne)
            intro e he
            rw [List.mem_singleton] at he
            subst he
            exact Relation.ReflTransGen.refl

/-- C9 witness for the amended statement: on exW9 the walled-off centre
(2,2) is unreachable from (0,0), so the router returns []. -/
theorem C9_router_contract_witness :
    Adapter.improved_route exW9 ((0 : Int), (0 : Int))
      ((2 : Int), (2 : Int)) [] = [] :=
  C9_router_contract.2.2.2 exW9 ((0 : Int), (0 : Int)) ((2 : Int), (2 : Int))
    [] exW9_center_unreachable (by decide)

end CTF
